import Mathlib

/-!
Verification of the VRP heuristics repository: a shallow embedding of
`nearest_neighbor_heuristic.py`, `savings_algorithm.py` and
`two_opt_improvement.py`, followed by theorems settling the spec claims.

Modelling conventions:
* Machine floats are modelled as exact rationals (`ℚ`); the float literal
  `0.001` is modelled as `1/1000`.
* The distance matrix (computed in the source by `_compute_distance_matrix`
  from Euclidean distances, hence entrywise nonnegative) is carried as an
  abstract function `dist : ℕ → ℕ → ℚ` together with the nonnegativity fact
  that the Euclidean computation guarantees.  All algorithms only read the
  matrix, so every theorem below holds for the matrix the source computes.
* Python `list`s become Lean `List`s; the mutated `unvisited` set of the
  nearest-neighbor solver is a list iterated in ascending order (CPython
  iterates a set of small ints in ascending order); dictionaries become
  functions updated pointwise; in-place mutation becomes explicit state
  passing.
-/

/-- Problem instance as held by the three solver classes: customer count,
demand lookup, capacity, vehicle count, and the precomputed distance matrix
(index 0 is the depot, customer `c` is matrix index `c+1`).  `dist_nonneg`
records that the matrix entries are Euclidean distances. -/
structure VRP where
  numCustomers : ℕ
  demands : ℕ → ℤ
  vehicle_capacity : ℤ
  num_vehicles : ℕ
  dist : ℕ → ℕ → ℚ
  dist_nonneg : ∀ i j, 0 ≤ dist i j

/-- Result dictionary of the two constructive solvers
(`routes`, `total_distance`, `num_vehicles_used`, `unvisited_customers`,
`feasible`). -/
structure Solution where
  routes : List (List ℕ)
  total_distance : ℚ
  num_vehicles_used : ℕ
  unvisited_customers : List ℕ
  feasible : Bool
deriving Repr, DecidableEq

/-- Result dictionary of `improve_solution` and `inter_route_2opt`
(`routes`, `total_distance`, `num_vehicles_used`, `improvement_iterations`,
`feasible`). -/
structure ImproveResult where
  routes : List (List ℕ)
  total_distance : ℚ
  num_vehicles_used : ℕ
  improvement_iterations : ℕ
  feasible : Bool
deriving Repr, DecidableEq

/-- Distance of the leg sequence from matrix position `pos` through the
customers of the route and back to the depot. -/
def route_legs (V : VRP) (pos : ℕ) : List ℕ → ℚ
  | [] => V.dist pos 0
  | c :: cs => V.dist pos (c + 1) + route_legs V (c + 1) cs

/-- `_calculate_route_distance`: depot → customers → depot, `0` for the
empty route (identical in all three source classes). -/
def calculate_route_distance (V : VRP) (route : List ℕ) : ℚ :=
  if route = [] then 0 else route_legs V 0 route

/-- `_calculate_total_distance`: sum of the route distances. -/
def calculate_total_distance (V : VRP) (routes : List (List ℕ)) : ℚ :=
  (routes.map (calculate_route_distance V)).sum

/-- Total demand of a route (`sum(self.demands[customer] for customer in route)`). -/
def route_load (V : VRP) (route : List ℕ) : ℤ :=
  (route.map V.demands).sum

/-- `_is_route_feasible`: the route's demand sum is within capacity. -/
def is_route_feasible (V : VRP) (route : List ℕ) : Bool :=
  route_load V route ≤ V.vehicle_capacity

/-- `_check_feasibility`: all routes are capacity-feasible. -/
def check_feasibility (V : VRP) (routes : List (List ℕ)) : Bool :=
  routes.all (is_route_feasible V)

namespace NN

/-- Scan of the `for customer_idx in unvisited` loop in `_construct_route`:
keep the first feasible customer strictly closer than the best so far
(`best = none` plays the role of `nearest_distance = inf`). -/
def select_nearest (V : VRP) (pos : ℕ) (load : ℤ) (best : Option (ℕ × ℚ)) :
    List ℕ → Option (ℕ × ℚ)
  | [] => best
  | c :: rest =>
    if load + V.demands c ≤ V.vehicle_capacity then
      match best with
      | none => select_nearest V pos load (some (c, V.dist pos (c + 1))) rest
      | some (b, bd) =>
        if V.dist pos (c + 1) < bd then
          select_nearest V pos load (some (c, V.dist pos (c + 1))) rest
        else select_nearest V pos load (some (b, bd)) rest
    else select_nearest V pos load best rest

theorem select_nearest_spec (V : VRP) (pos : ℕ) (load : ℤ) :
    ∀ (l : List ℕ) (best : Option (ℕ × ℚ)) (c : ℕ) (d : ℚ),
    select_nearest V pos load best l = some (c, d) →
    best = some (c, d) ∨
      (c ∈ l ∧ load + V.demands c ≤ V.vehicle_capacity ∧ d = V.dist pos (c + 1)) := by
  intro l
  induction l with
  | nil => intro best c d h; exact Or.inl h
  | cons a rest ih =>
    intro best c d h
    simp only [select_nearest] at h
    by_cases hf : load + V.demands a ≤ V.vehicle_capacity
    · simp only [if_pos hf] at h
      cases best with
      | none =>
        rcases ih _ _ _ h with h' | h'
        · rcases Option.some.inj h' with h''
          cases h''
          exact Or.inr ⟨List.mem_cons_self _ _, hf, rfl⟩
        · exact Or.inr ⟨List.mem_cons_of_mem _ h'.1, h'.2⟩
      | some p =>
        rcases p with ⟨b, bd⟩
        by_cases hd : V.dist pos (a + 1) < bd
        · simp only [if_pos hd] at h
          rcases ih _ _ _ h with h' | h'
          · rcases Option.some.inj h' with h''
            cases h''
            exact Or.inr ⟨List.mem_cons_self _ _, hf, rfl⟩
          · exact Or.inr ⟨List.mem_cons_of_mem _ h'.1, h'.2⟩
        · simp only [if_neg hd] at h
          rcases ih _ _ _ h with h' | h'
          · exact Or.inl h'
          · exact Or.inr ⟨List.mem_cons_of_mem _ h'.1, h'.2⟩
    · simp only [if_neg hf] at h
      rcases ih _ _ _ h with h' | h'
      · exact Or.inl h'
      · exact Or.inr ⟨List.mem_cons_of_mem _ h'.1, h'.2⟩

theorem select_nearest_none_spec (V : VRP) (pos : ℕ) (load : ℤ) (l : List ℕ)
    (c : ℕ) (d : ℚ) (h : select_nearest V pos load none l = some (c, d)) :
    c ∈ l ∧ load + V.demands c ≤ V.vehicle_capacity ∧ d = V.dist pos (c + 1) := by
  rcases select_nearest_spec V pos load l none c d h with h' | h'
  · exact absurd h' (by simp)
  · exact h'

/-- The `while unvisited` loop body of `_construct_route`: pick the nearest
feasible customer, append it to the route, remove it from the unvisited
list, update load / position / accumulated distance; when no feasible
customer exists, close the route with the return-to-depot leg (only for a
nonempty route) and return the route, its distance, and the updated
unvisited list. -/
def construct_route_loop (V : VRP) (unvisited route : List ℕ) (load : ℤ)
    (pos : ℕ) (acc : ℚ) : List ℕ × ℚ × List ℕ :=
  match h : select_nearest V pos load none unvisited with
  | none => (route, if route = [] then acc else acc + V.dist pos 0, unvisited)
  | some (c, d) =>
    construct_route_loop V (unvisited.erase c) (route ++ [c])
      (load + V.demands c) (c + 1) (acc + d)
termination_by unvisited.length
decreasing_by
  have hc := (select_nearest_none_spec V pos load unvisited c d h).1
  have := List.length_erase_of_mem hc
  have hpos : 0 < unvisited.length := List.length_pos.mpr (List.ne_nil_of_mem hc)
  omega

/-- `_construct_route`: start at the depot with an empty route and zero load. -/
def construct_route (V : VRP) (unvisited : List ℕ) : List ℕ × ℚ × List ℕ :=
  construct_route_loop V unvisited [] 0 0 0

theorem construct_route_loop_len (V : VRP) :
    ∀ (unvisited route : List ℕ) (load : ℤ) (pos : ℕ) (acc : ℚ),
    (construct_route_loop V unvisited route load pos acc).2.2.length +
      (construct_route_loop V unvisited route load pos acc).1.length =
      unvisited.length + route.length := by
  intro unvisited route load pos acc
  induction unvisited, route, load, pos, acc using construct_route_loop.induct V with
  | case1 unvisited route load pos acc h =>
    rw [construct_route_loop, h]
  | case2 unvisited route load pos acc c d h ih =>
    rw [construct_route_loop, h]
    simp only at ih
    have hc := (select_nearest_none_spec V pos load unvisited c d h).1
    have := List.length_erase_of_mem hc
    have hpos : 0 < unvisited.length := List.length_pos.mpr (List.ne_nil_of_mem hc)
    simp only [List.length_append, List.length_singleton] at ih ⊢
    omega

/-- The `while unvisited and vehicle_count < num_vehicles` loop of
`NearestNeighborVRP.solve`: build one route at a time, stopping early when a
construction attempt yields an empty route. -/
def solve_loop (V : VRP) (unvisited : List ℕ) (routes : List (List ℕ))
    (td : ℚ) (count : ℕ) : Solution :=
  if unvisited ≠ [] ∧ count < V.num_vehicles then
    match hres : construct_route V unvisited with
    | (route, rd, unv') =>
      if route = [] then
        ⟨routes, td, routes.length, unv', unv'.isEmpty⟩
      else
        solve_loop V unv' (routes ++ [route]) (td + rd) (count + 1)
  else ⟨routes, td, routes.length, unvisited, unvisited.isEmpty⟩
termination_by unvisited.length
decreasing_by
  rename_i hr
  have hlen := construct_route_loop_len V unvisited [] 0 0 0
  rw [show construct_route_loop V unvisited [] 0 0 0 = (route, rd, unv') from hres] at hlen
  have h1 : 0 < route.length := List.length_pos.mpr hr
  simp only [List.length_nil] at hlen
  omega

/-- `NearestNeighborVRP.solve`: the unvisited set starts as all customer
indices `0, …, N-1`. -/
def solve (V : VRP) : Solution :=
  solve_loop V (List.range V.numCustomers) [] 0 0

end NN

namespace Savings

/-- Unsorted savings list of `_calculate_savings`: for every pair `i < j`,
the triple `(i, j, dist(depot,i) + dist(depot,j) - dist(i,j))`, generated in
the nested-loop order of the source. -/
def savings_raw (V : VRP) : List (ℕ × ℕ × ℚ) :=
  (List.range V.numCustomers).flatMap fun i =>
    (List.range' (i + 1) (V.numCustomers - (i + 1))).map fun j =>
      (i, j, V.dist 0 (i + 1) + V.dist 0 (j + 1) - V.dist (i + 1) (j + 1))

/-- `_calculate_savings`: the savings entries sorted by savings value in
descending order (Python `list.sort` is stable; `mergeSort` with the
reversed comparison models `sort(key=itemgetter(2), reverse=True)`). -/
def savings_list (V : VRP) : List (ℕ × ℕ × ℚ) :=
  (savings_raw V).mergeSort fun a b => decide (b.2.2 ≤ a.2.2)

/-- `_can_merge_routes`: the combined load fits the capacity and both
customers sit at an end (first or last position) of their own routes.
`headD`/`getLastD` model the source's `route[0]`/`route[-1]` lookups, which
are only ever reached on nonempty routes. -/
def can_merge_routes (V : VRP) (route1 route2 : List ℕ) (load1 load2 : ℤ)
    (customer_i customer_j : ℕ) : Bool :=
  if V.vehicle_capacity < load1 + load2 then false
  else
    decide (route1.headD 0 = customer_i ∨ route1.getLastD 0 = customer_i) &&
    decide (route2.headD 0 = customer_j ∨ route2.getLastD 0 = customer_j)

/-- `_merge_routes`: orient the two routes according to the endpoint
positions of the two customers (four cases, tested in source order) and
recompute the merged load. -/
def merge_routes (V : VRP) (route1 route2 : List ℕ) (customer_i customer_j : ℕ) :
    List ℕ × ℤ :=
  let i_pos : ℕ := if route1.headD 0 = customer_i then 0 else route1.length - 1
  let j_pos : ℕ := if route2.headD 0 = customer_j then 0 else route2.length - 1
  let merged : List ℕ :=
    if i_pos = route1.length - 1 ∧ j_pos = 0 then route1 ++ route2
    else if i_pos = 0 ∧ j_pos = route2.length - 1 then route2 ++ route1
    else if i_pos = route1.length - 1 ∧ j_pos = route2.length - 1 then
      route1 ++ route2.reverse
    else if i_pos = 0 ∧ j_pos = 0 then route1.reverse ++ route2
    else []
  (merged, route_load V merged)

/-- Mutable state of `SavingsAlgorithmVRP.solve`: the route table indexed by
route id, the per-route loads, and the customer → route-id mapping. -/
structure SavState where
  routes : List (List ℕ)
  loads : List ℤ
  cr : ℕ → ℕ

/-- Body of the savings-processing loop for one savings entry `(ci, cj)`:
skip if the customers share a route; if `_can_merge_routes` allows it, merge
into `route_i`, empty `route_j`, and redirect the mapping of every customer
of `route_j`. -/
def merge_step (V : VRP) (st : SavState) (ci cj : ℕ) : SavState :=
  let ri := st.cr ci
  let rj := st.cr cj
  if ri = rj then st
  else if can_merge_routes V (st.routes.getD ri []) (st.routes.getD rj [])
      (st.loads.getD ri 0) (st.loads.getD rj 0) ci cj then
    let m := merge_routes V (st.routes.getD ri []) (st.routes.getD rj []) ci cj
    { routes := (st.routes.set ri m.1).set rj []
      loads := (st.loads.set ri m.2).set rj 0
      cr := fun c => if c ∈ st.routes.getD rj [] then ri else st.cr c }
  else st

/-- The `for customer_i, customer_j, savings_value in self.savings_list`
loop: stop (`break`) at the first entry with non-positive savings value,
otherwise apply `merge_step`. -/
def process_savings (V : VRP) (st : SavState) : List (ℕ × ℕ × ℚ) → SavState
  | [] => st
  | (i, j, s) :: rest =>
    if s ≤ 0 then st else process_savings V (merge_step V st i j) rest

/-- Initial state of `solve`: one singleton route per customer, loads given
by the demands, identity customer → route-id mapping. -/
def init_state (V : VRP) : SavState :=
  { routes := (List.range V.numCustomers).map fun i => [i]
    loads := (List.range V.numCustomers).map fun i => V.demands i
    cr := fun i => i }

/-- The state of `SavingsAlgorithmVRP.solve` after the merging loop. -/
def final_state (V : VRP) : SavState :=
  process_savings V (init_state V) (savings_list V)

/-- The local `final_routes` of `solve`: the nonempty routes left after
merging. -/
def final_routes (V : VRP) : List (List ℕ) :=
  (final_state V).routes.filter fun r => !r.isEmpty

/-- The vehicle-limit truncation of `solve`: when more than `num_vehicles`
routes remain, keep the `num_vehicles` routes of smallest distance (stable
ascending sort by distance, then `take`). -/
def kept_routes (V : VRP) : List (List ℕ) :=
  if V.num_vehicles < (final_routes V).length then
    ((((final_routes V).map fun r => (r, calculate_route_distance V r)).mergeSort
        fun a b => decide (a.2 ≤ b.2)).take V.num_vehicles).map (·.1)
  else final_routes V

/-- The `unvisited` list of `solve`: customers of `range(N)` not served by
any kept route. -/
def unvisited_list (V : VRP) : List ℕ :=
  (List.range V.numCustomers).filter fun c => !((kept_routes V).flatten.contains c)

/-- `SavingsAlgorithmVRP.solve`: merge, drop empty routes, truncate to the
vehicle limit, and assemble the solution with the unvisited-customer list. -/
def solve (V : VRP) : Solution :=
  ⟨kept_routes V, calculate_total_distance V (kept_routes V),
    (kept_routes V).length, unvisited_list V, (unvisited_list V).isEmpty⟩

end Savings

theorem route_legs_nonneg (V : VRP) : ∀ (r : List ℕ) (pos : ℕ), 0 ≤ route_legs V pos r := by
  intro r
  induction r with
  | nil => intro pos; exact V.dist_nonneg pos 0
  | cons c cs ih => intro pos; exact add_nonneg (V.dist_nonneg pos (c + 1)) (ih (c + 1))

theorem calculate_route_distance_nonneg (V : VRP) (r : List ℕ) :
    0 ≤ calculate_route_distance V r := by
  unfold calculate_route_distance
  split
  · exact le_refl 0
  · exact route_legs_nonneg V r 0

theorem calculate_total_distance_nonneg (V : VRP) (rs : List (List ℕ)) :
    0 ≤ calculate_total_distance V rs := by
  apply List.sum_nonneg
  intro x hx
  rcases List.mem_map.mp hx with ⟨r, _, rfl⟩
  exact calculate_route_distance_nonneg V r

theorem sum_take_getElem_drop {M : Type} [AddMonoid M] (l : List M) (n : ℕ)
    (h : n < l.length) :
    l.sum = (l.take n).sum + l[n] + (l.drop (n + 1)).sum := by
  conv_lhs => rw [← List.sum_take_add_sum_drop l n]
  rw [List.drop_eq_getElem_cons h, List.sum_cons, add_assoc]

theorem calculate_total_distance_set (V : VRP) (rs : List (List ℕ)) (idx : ℕ)
    (r' : List ℕ) (h : idx < rs.length) :
    calculate_total_distance V (rs.set idx r') =
      calculate_total_distance V rs - calculate_route_distance V (rs.getD idx [])
        + calculate_route_distance V r' := by
  unfold calculate_total_distance
  rw [List.map_set, List.sum_set]
  have hlen : idx < (rs.map (calculate_route_distance V)).length := by simpa
  rw [if_pos hlen]
  rw [sum_take_getElem_drop (rs.map (calculate_route_distance V)) idx hlen]
  rw [List.getElem_map, List.getD_eq_getElem rs [] h]
  ring

theorem getD_set_ne {α : Type} (l : List α) (i j : ℕ) (a d : α) (hij : i ≠ j) :
    (l.set i a).getD j d = l.getD j d := by
  by_cases hj : j < l.length
  · rw [List.getD_eq_getElem _ _ (by simpa using hj), List.getD_eq_getElem _ _ hj,
      List.getElem_set_ne hij]
  · rw [List.getD_eq_default, List.getD_eq_default] <;> simp at hj ⊢ <;> omega

theorem ceil_helper (a b : ℚ) (hb : 0 ≤ b) (h : b + 1 / 1000 < a) :
    (⌈b * 1000⌉).toNat < (⌈a * 1000⌉).toNat := by
  have h1 : b * 1000 + 1 ≤ a * 1000 := by linarith
  have h2 : ⌈b * 1000 + 1⌉ ≤ ⌈a * 1000⌉ := Int.ceil_le_ceil h1
  rw [Int.ceil_add_one] at h2
  have h3 : (0 : ℤ) ≤ ⌈b * 1000⌉ := Int.ceil_nonneg (by positivity)
  omega

namespace TwoOpt

/-- The 2-opt move of `_improve_route_2opt`: reverse the segment of the
route strictly after position `i` up to and including position `j`
(`new_route[i+1:j+1] = reversed(new_route[i+1:j+1])`). -/
def reverse_segment (route : List ℕ) (i j : ℕ) : List ℕ :=
  route.take (i + 1) ++ ((route.drop (i + 1)).take (j - i)).reverse ++ route.drop (j + 1)

/-- Enumeration order of the candidate pair loops `for i in range(n - 1)`,
`for j in range(i + 2, n)`. -/
def pair_list (n : ℕ) : List (ℕ × ℕ) :=
  (List.range (n - 1)).flatMap fun i =>
    (List.range' (i + 2) (n - (i + 2))).map fun j => (i, j)

/-- Body of the candidate loop of `_improve_route_2opt`: skip infeasible
reversals, keep a strictly better improvement over the fixed original route
distance. -/
def move_step (V : VRP) (route : List ℕ) (best : List ℕ × ℚ) (p : ℕ × ℕ) :
    List ℕ × ℚ :=
  if is_route_feasible V (reverse_segment route p.1 p.2) then
    if best.2 < calculate_route_distance V route
        - calculate_route_distance V (reverse_segment route p.1 p.2) then
      (reverse_segment route p.1 p.2,
        calculate_route_distance V route
          - calculate_route_distance V (reverse_segment route p.1 p.2))
    else best
  else best

/-- `_improve_route_2opt`: fold of the candidate loop starting from
`(route, 0.0)`. -/
def improve_route_2opt (V : VRP) (route : List ℕ) : List ℕ × ℚ :=
  (pair_list route.length).foldl (move_step V route) (route, 0)

theorem foldl_move_inv (V : VRP) (route : List ℕ) :
    ∀ (l : List (ℕ × ℕ)) (b : List ℕ × ℚ),
    b.2 = calculate_route_distance V route - calculate_route_distance V b.1 →
    (l.foldl (move_step V route) b).2 =
      calculate_route_distance V route
        - calculate_route_distance V ((l.foldl (move_step V route) b).1) := by
  intro l
  induction l with
  | nil => intro b hb; exact hb
  | cons p rest ih =>
    intro b hb
    rw [List.foldl_cons]
    apply ih
    unfold move_step
    split
    · split
      · simp
      · exact hb
    · exact hb

theorem improve_route_2opt_dist (V : VRP) (route : List ℕ) :
    (improve_route_2opt V route).2 =
      calculate_route_distance V route
        - calculate_route_distance V (improve_route_2opt V route).1 := by
  unfold improve_route_2opt
  apply foldl_move_inv
  simp [calculate_route_distance]

/-- The `for route_idx, route in enumerate(current_routes)` scan of
`improve_solution`: find the first route (in order) with at least 3
customers whose best 2-opt move improves by more than `0.001`, returning
its index, the improved route and the improvement. -/
def find_improvement (V : VRP) : List (List ℕ) → Option (ℕ × List ℕ × ℚ)
  | [] => none
  | r :: rest =>
    if r.length < 3 then (find_improvement V rest).map fun x => (x.1 + 1, x.2)
    else if 1 / 1000 < (improve_route_2opt V r).2 then
      some (0, improve_route_2opt V r)
    else (find_improvement V rest).map fun x => (x.1 + 1, x.2)

theorem find_improvement_spec (V : VRP) :
    ∀ (rs : List (List ℕ)) (idx : ℕ) (r' : List ℕ) (imp : ℚ),
    find_improvement V rs = some (idx, r', imp) →
    idx < rs.length ∧ ¬((rs.getD idx []).length < 3) ∧
      improve_route_2opt V (rs.getD idx []) = (r', imp) ∧ 1 / 1000 < imp := by
  intro rs
  induction rs with
  | nil => intro idx r' imp h; exact absurd h (by simp [find_improvement])
  | cons r rest ih =>
    intro idx r' imp h
    unfold find_improvement at h
    by_cases h3 : r.length < 3
    · rw [if_pos h3] at h
      rcases Option.map_eq_some'.mp h with ⟨x, hx, hmk⟩
      rcases x with ⟨idx0, r0, imp0⟩
      simp only [Prod.mk.injEq] at hmk
      obtain ⟨h1, h2, h4⟩ := hmk
      subst h1; subst h2; subst h4
      obtain ⟨ha, hb, hc, hd⟩ := ih idx0 r0 imp0 hx
      refine ⟨by simpa using ha, ?_, ?_, hd⟩
      · simpa using hb
      · simpa using hc
    · rw [if_neg h3] at h
      by_cases himp : 1 / 1000 < (improve_route_2opt V r).2
      · rw [if_pos himp] at h
        rcases Option.some.inj h with h'
        simp only [Prod.mk.injEq] at h'
        obtain ⟨h1, h2⟩ := h'
        subst h1
        refine ⟨by simp, by simpa using h3, by simpa using h2, ?_⟩
        rw [h2] at himp
        exact himp
      · rw [if_neg himp] at h
        rcases Option.map_eq_some'.mp h with ⟨x, hx, hmk⟩
        rcases x with ⟨idx0, r0, imp0⟩
        simp only [Prod.mk.injEq] at hmk
        obtain ⟨h1, h2, h4⟩ := hmk
        subst h1; subst h2; subst h4
        obtain ⟨ha, hb, hc, hd⟩ := ih idx0 r0 imp0 hx
        refine ⟨by simpa using ha, by simpa using hb, by simpa using hc, hd⟩

/-- Termination measure of the improvement loops: the scaled-up
current total distance (each accepted move lowers the total by more than
`1/1000`, and the total is nonnegative). -/
def phi (V : VRP) (rs : List (List ℕ)) : ℕ :=
  (⌈calculate_total_distance V rs * 1000⌉).toNat

/-- The `while improvement_found and iterations_without_improvement <
max_iterations` loop of `improve_solution`, with the state
`(current_routes, current_distance, iterations_without_improvement,
total_iterations, improvement_found)` passed explicitly. -/
def improve_loop (V : VRP) (maxIter : ℕ) (routes : List (List ℕ)) (cd : ℚ)
    (iw ti : ℕ) (found : Bool) : ImproveResult :=
  if h : found = true ∧ iw < maxIter then
    match hf : find_improvement V routes with
    | some (idx, r', imp) =>
      improve_loop V maxIter (routes.set idx r') (cd - imp) 0 (ti + 1) true
    | none => improve_loop V maxIter routes cd (iw + 1) (ti + 1) false
  else ⟨routes, cd, routes.length, ti, check_feasibility V routes⟩
termination_by 2 * phi V routes + (if found = true then 1 else 0)
decreasing_by
  · obtain ⟨hidx, h3, heq, himp⟩ := find_improvement_spec V routes idx r' imp hf
    have himp_eq : imp = calculate_route_distance V (routes.getD idx [])
        - calculate_route_distance V r' := by
      have hd := improve_route_2opt_dist V (routes.getD idx [])
      rw [heq] at hd
      exact hd
    have hset := calculate_total_distance_set V routes idx r' hidx
    have hnn := calculate_total_distance_nonneg V (routes.set idx r')
    have hphi : phi V (routes.set idx r') < phi V routes := by
      apply ceil_helper _ _ hnn
      rw [hset]
      linarith
    simp only [h.1, if_pos rfl, phi] at *
    omega
  · rcases h with ⟨h1, h2⟩
    rw [h1]
    simp

/-- `TwoOptVRP.improve_solution`: run the loop from a (deep copy of the)
initial route list, its recomputed total distance, and the initial flags. -/
def improve_solution (V : VRP) (initial_routes : List (List ℕ)) (maxIter : ℕ) :
    ImproveResult :=
  improve_loop V maxIter initial_routes
    (calculate_total_distance V initial_routes) 0 0 true

end TwoOpt

namespace TwoOpt

/-- The four nested scan loops of `inter_route_2opt` with their
first-hit-wins break discipline: for route pairs `i < j` (both nonempty)
and positions `ci`, `cj`, accept the first customer swap that keeps both
routes feasible and lowers their combined distance by more than `0.001`;
returns the route indices, the two new routes and the improvement. -/
def inter_search (V : VRP) (rs : List (List ℕ)) :
    Option (ℕ × ℕ × List ℕ × List ℕ × ℚ) :=
  (List.range rs.length).findSome? fun i =>
    (List.range' (i + 1) (rs.length - (i + 1))).findSome? fun j =>
      if (rs.getD i []).isEmpty || (rs.getD j []).isEmpty then none
      else
        (List.range (rs.getD i []).length).findSome? fun ci =>
          (List.range (rs.getD j []).length).findSome? fun cj =>
            if is_route_feasible V ((rs.getD i []).set ci ((rs.getD j []).getD cj 0)) &&
                is_route_feasible V ((rs.getD j []).set cj ((rs.getD i []).getD ci 0)) then
              if calculate_route_distance V ((rs.getD i []).set ci ((rs.getD j []).getD cj 0)) +
                    calculate_route_distance V ((rs.getD j []).set cj ((rs.getD i []).getD ci 0)) <
                  calculate_route_distance V (rs.getD i []) +
                    calculate_route_distance V (rs.getD j []) - 1 / 1000 then
                some (i, j, (rs.getD i []).set ci ((rs.getD j []).getD cj 0),
                  (rs.getD j []).set cj ((rs.getD i []).getD ci 0),
                  calculate_route_distance V (rs.getD i []) +
                    calculate_route_distance V (rs.getD j []) -
                    (calculate_route_distance V ((rs.getD i []).set ci ((rs.getD j []).getD cj 0)) +
                      calculate_route_distance V ((rs.getD j []).set cj ((rs.getD i []).getD ci 0))))
              else none
            else none

theorem inter_search_spec (V : VRP) (rs : List (List ℕ)) (i j : ℕ)
    (nri nrj : List ℕ) (imp : ℚ)
    (h : inter_search V rs = some (i, j, nri, nrj, imp)) :
    i < j ∧ j < rs.length ∧
      (∃ ci cj : ℕ, ci < (rs.getD i []).length ∧ cj < (rs.getD j []).length ∧
        nri = (rs.getD i []).set ci ((rs.getD j []).getD cj 0) ∧
        nrj = (rs.getD j []).set cj ((rs.getD i []).getD ci 0)) ∧
      is_route_feasible V nri = true ∧ is_route_feasible V nrj = true ∧
      imp = calculate_route_distance V (rs.getD i []) +
          calculate_route_distance V (rs.getD j []) -
          (calculate_route_distance V nri + calculate_route_distance V nrj) ∧
      1 / 1000 < imp := by
  unfold inter_search at h
  obtain ⟨i', hi, h1⟩ := List.exists_of_findSome?_eq_some h
  obtain ⟨j', hj, h2⟩ := List.exists_of_findSome?_eq_some h1
  rw [List.mem_range] at hi
  rw [List.mem_range'_1] at hj
  by_cases he : (rs.getD i' []).isEmpty || (rs.getD j' []).isEmpty
  · rw [if_pos he] at h2
    exact absurd h2 (by simp)
  · rw [if_neg he] at h2
    obtain ⟨ci', hci, h3⟩ := List.exists_of_findSome?_eq_some h2
    obtain ⟨cj', hcj, h4⟩ := List.exists_of_findSome?_eq_some h3
    rw [List.mem_range] at hci
    rw [List.mem_range] at hcj
    by_cases hfeas : is_route_feasible V ((rs.getD i' []).set ci' ((rs.getD j' []).getD cj' 0)) &&
        is_route_feasible V ((rs.getD j' []).set cj' ((rs.getD i' []).getD ci' 0))
    · rw [if_pos hfeas] at h4
      by_cases hlt : calculate_route_distance V ((rs.getD i' []).set ci' ((rs.getD j' []).getD cj' 0)) +
            calculate_route_distance V ((rs.getD j' []).set cj' ((rs.getD i' []).getD ci' 0)) <
          calculate_route_distance V (rs.getD i' []) +
            calculate_route_distance V (rs.getD j' []) - 1 / 1000
      · rw [if_pos hlt] at h4
        rcases Option.some.inj h4 with h5
        simp only [Prod.mk.injEq] at h5
        obtain ⟨rfl, rfl, rfl, rfl, rfl⟩ := h5
        simp only [Bool.and_eq_true] at hfeas
        rcases hfeas with ⟨hf1, hf2⟩
        refine ⟨by omega, by omega, ⟨ci', cj', hci, hcj, rfl, rfl⟩, hf1, hf2, rfl, ?_⟩
        linarith
      · rw [if_neg hlt] at h4
        exact absurd h4 (by simp)
    · rw [if_neg hfeas] at h4
      exact absurd h4 (by simp)

/-- The `while improvement_found and iterations_without_improvement <
max_iterations` loop of `inter_route_2opt`. -/
def inter_loop (V : VRP) (maxIter : ℕ) (routes : List (List ℕ)) (cd : ℚ)
    (iw ti : ℕ) (found : Bool) : ImproveResult :=
  if h : found = true ∧ iw < maxIter then
    match hf : inter_search V routes with
    | some (i, j, nri, nrj, imp) =>
      inter_loop V maxIter ((routes.set i nri).set j nrj) (cd - imp) 0 (ti + 1) true
    | none => inter_loop V maxIter routes cd (iw + 1) (ti + 1) false
  else ⟨routes, cd, routes.length, ti, check_feasibility V routes⟩
termination_by 2 * phi V routes + (if found = true then 1 else 0)
decreasing_by
  · obtain ⟨hij, hjlen, ⟨ci, cj, hci, hcj, hnri, hnrj⟩, hf1, hf2, himp_eq, himp⟩ :=
      inter_search_spec V routes i j nri nrj imp hf
    have hilen : i < routes.length := lt_trans hij hjlen
    have hset1 := calculate_total_distance_set V routes i nri hilen
    have hjlen' : j < (routes.set i nri).length := by
      rw [List.length_set]; exact hjlen
    have hset2 := calculate_total_distance_set V (routes.set i nri) j nrj hjlen'
    have hgetj : (routes.set i nri).getD j [] = routes.getD j [] :=
      getD_set_ne routes i j nri [] (Nat.ne_of_lt hij)
    have hnn := calculate_total_distance_nonneg V ((routes.set i nri).set j nrj)
    have hphi : phi V ((routes.set i nri).set j nrj) < phi V routes := by
      apply ceil_helper _ _ hnn
      rw [hset2, hgetj, hset1]
      linarith
    simp only [h.1, if_pos rfl, phi] at *
    omega
  · rcases h with ⟨h1, h2⟩
    rw [h1]
    simp

/-- `TwoOptVRP.inter_route_2opt`: run the inter-route loop from a (deep
copy of the) route list and its recomputed total distance. -/
def inter_route_2opt (V : VRP) (routes : List (List ℕ)) (maxIter : ℕ) :
    ImproveResult :=
  inter_loop V maxIter routes (calculate_total_distance V routes) 0 0 true

end TwoOpt

namespace TwoOpt

theorem improve_loop_step_some (V : VRP) (maxIter : ℕ) (routes : List (List ℕ))
    (cd : ℚ) (iw ti : ℕ) (found : Bool) (idx : ℕ) (r' : List ℕ) (imp : ℚ)
    (h : found = true ∧ iw < maxIter)
    (hf : find_improvement V routes = some (idx, r', imp)) :
    improve_loop V maxIter routes cd iw ti found =
      improve_loop V maxIter (routes.set idx r') (cd - imp) 0 (ti + 1) true := by
  rw [improve_loop, dif_pos h]
  split
  · rename_i idx0 r0 imp0 heq
    rw [hf] at heq
    rcases Option.some.inj heq with h5
    simp only [Prod.mk.injEq] at h5
    obtain ⟨rfl, rfl, rfl⟩ := h5
    rfl
  · rename_i heq
    rw [hf] at heq
    exact absurd heq (by simp)

theorem improve_loop_step_none (V : VRP) (maxIter : ℕ) (routes : List (List ℕ))
    (cd : ℚ) (iw ti : ℕ) (found : Bool)
    (h : found = true ∧ iw < maxIter)
    (hf : find_improvement V routes = none) :
    improve_loop V maxIter routes cd iw ti found =
      improve_loop V maxIter routes cd (iw + 1) (ti + 1) false := by
  rw [improve_loop, dif_pos h]
  split
  · rename_i idx0 r0 imp0 heq
    rw [hf] at heq
    exact absurd heq (by simp)
  · rfl

theorem improve_loop_base (V : VRP) (maxIter : ℕ) (routes : List (List ℕ))
    (cd : ℚ) (iw ti : ℕ) (found : Bool)
    (h : ¬(found = true ∧ iw < maxIter)) :
    improve_loop V maxIter routes cd iw ti found =
      ⟨routes, cd, routes.length, ti, check_feasibility V routes⟩ := by
  rw [improve_loop, dif_neg h]

theorem improve_loop_le (V : VRP) (maxIter : ℕ) :
    ∀ (routes : List (List ℕ)) (cd : ℚ) (iw ti : ℕ) (found : Bool),
    (improve_loop V maxIter routes cd iw ti found).total_distance ≤ cd := by
  intro routes cd iw ti found
  induction routes, cd, iw, ti, found using improve_loop.induct V maxIter with
  | case1 routes cd iw ti found h idx r' imp hf ih =>
    rw [improve_loop_step_some V maxIter routes cd iw ti found idx r' imp h hf]
    have himp := (find_improvement_spec V routes idx r' imp hf).2.2.2
    calc (improve_loop V maxIter (routes.set idx r') (cd - imp) 0 (ti + 1) true).total_distance
        ≤ cd - imp := ih
      _ ≤ cd := by linarith
  | case2 routes cd iw ti found h hf ih =>
    rw [improve_loop_step_none V maxIter routes cd iw ti found h hf]
    exact ih
  | case3 routes cd iw ti found h =>
    rw [improve_loop_base V maxIter routes cd iw ti found h]

theorem improve_loop_total_eq (V : VRP) (maxIter : ℕ) :
    ∀ (routes : List (List ℕ)) (cd : ℚ) (iw ti : ℕ) (found : Bool),
    cd = calculate_total_distance V routes →
    (improve_loop V maxIter routes cd iw ti found).total_distance =
      calculate_total_distance V
        ((improve_loop V maxIter routes cd iw ti found).routes) := by
  intro routes cd iw ti found
  induction routes, cd, iw, ti, found using improve_loop.induct V maxIter with
  | case1 routes cd iw ti found h idx r' imp hf ih =>
    intro hcd
    rw [improve_loop_step_some V maxIter routes cd iw ti found idx r' imp h hf]
    apply ih
    obtain ⟨hidx, h3, heq, himp⟩ := find_improvement_spec V routes idx r' imp hf
    have himp_eq : imp = calculate_route_distance V (routes.getD idx [])
        - calculate_route_distance V r' := by
      have hd := improve_route_2opt_dist V (routes.getD idx [])
      rw [heq] at hd
      exact hd
    rw [calculate_total_distance_set V routes idx r' hidx, hcd, himp_eq]
    ring
  | case2 routes cd iw ti found h hf ih =>
    intro hcd
    rw [improve_loop_step_none V maxIter routes cd iw ti found h hf]
    exact ih hcd
  | case3 routes cd iw ti found h =>
    intro hcd
    rw [improve_loop_base V maxIter routes cd iw ti found h]
    exact hcd

theorem improve_loop_inv (V : VRP) (maxIter : ℕ) (P : List (List ℕ) → Prop)
    (hstep : ∀ (routes : List (List ℕ)) (idx : ℕ) (r' : List ℕ) (imp : ℚ),
      find_improvement V routes = some (idx, r', imp) → P routes →
      P (routes.set idx r')) :
    ∀ (routes : List (List ℕ)) (cd : ℚ) (iw ti : ℕ) (found : Bool),
    P routes → P ((improve_loop V maxIter routes cd iw ti found).routes) := by
  intro routes cd iw ti found
  induction routes, cd, iw, ti, found using improve_loop.induct V maxIter with
  | case1 routes cd iw ti found h idx r' imp hf ih =>
    intro hP
    rw [improve_loop_step_some V maxIter routes cd iw ti found idx r' imp h hf]
    exact ih (hstep routes idx r' imp hf hP)
  | case2 routes cd iw ti found h hf ih =>
    intro hP
    rw [improve_loop_step_none V maxIter routes cd iw ti found h hf]
    exact ih hP
  | case3 routes cd iw ti found h =>
    intro hP
    rw [improve_loop_base V maxIter routes cd iw ti found h]
    exact hP

theorem improve_loop_fixed (V : VRP) (maxIter : ℕ) (hm : 1 ≤ maxIter) :
    ∀ (routes : List (List ℕ)) (cd : ℚ) (iw ti : ℕ) (found : Bool),
    (found = false → find_improvement V routes = none) →
    (found = true → iw = 0) →
    find_improvement V
      ((improve_loop V maxIter routes cd iw ti found).routes) = none := by
  intro routes cd iw ti found
  induction routes, cd, iw, ti, found using improve_loop.induct V maxIter with
  | case1 routes cd iw ti found h idx r' imp hf ih =>
    intro _ _
    rw [improve_loop_step_some V maxIter routes cd iw ti found idx r' imp h hf]
    exact ih (by intro hff; exact absurd hff (by simp)) (fun _ => rfl)
  | case2 routes cd iw ti found h hf ih =>
    intro _ _
    rw [improve_loop_step_none V maxIter routes cd iw ti found h hf]
    exact ih (fun _ => hf) (by intro hff; exact absurd hff (by simp))
  | case3 routes cd iw ti found h =>
    intro h1 h2
    rw [improve_loop_base V maxIter routes cd iw ti found h]
    rcases Bool.eq_false_or_eq_true found with htt | hff
    · exact absurd ⟨htt, by rw [h2 htt]; omega⟩ h
    · exact h1 hff

theorem improve_loop_maxIter_irrel (V : VRP) (m1 m2 : ℕ) (hm1 : 1 ≤ m1)
    (hm2 : 1 ≤ m2) :
    ∀ (routes : List (List ℕ)) (cd : ℚ) (iw ti : ℕ) (found : Bool),
    (found = true → iw = 0) →
    improve_loop V m1 routes cd iw ti found =
      improve_loop V m2 routes cd iw ti found := by
  intro routes cd iw ti found
  induction routes, cd, iw, ti, found using improve_loop.induct V m1 with
  | case1 routes cd iw ti found h idx r' imp hf ih =>
    intro hiw
    have h2 : found = true ∧ iw < m2 := ⟨h.1, by rw [hiw h.1]; omega⟩
    rw [improve_loop_step_some V m1 routes cd iw ti found idx r' imp h hf,
      improve_loop_step_some V m2 routes cd iw ti found idx r' imp h2 hf]
    exact ih (fun _ => rfl)
  | case2 routes cd iw ti found h hf ih =>
    intro hiw
    have h2 : found = true ∧ iw < m2 := ⟨h.1, by rw [hiw h.1]; omega⟩
    rw [improve_loop_step_none V m1 routes cd iw ti found h hf,
      improve_loop_step_none V m2 routes cd iw ti found h2 hf]
    exact ih (by intro hff; exact absurd hff (by simp))
  | case3 routes cd iw ti found h =>
    intro hiw
    have hff : found = false := by
      rcases Bool.eq_false_or_eq_true found with htt | hff
      · exact absurd ⟨htt, by rw [hiw htt]; omega⟩ h
      · exact hff
    have h2 : ¬(found = true ∧ iw < m2) := by
      intro hc
      rw [hff] at hc
      exact absurd hc.1 (by simp)
    rw [improve_loop_base V m1 routes cd iw ti found h,
      improve_loop_base V m2 routes cd iw ti found h2]

theorem inter_loop_step_some (V : VRP) (maxIter : ℕ) (routes : List (List ℕ))
    (cd : ℚ) (iw ti : ℕ) (found : Bool) (i j : ℕ) (nri nrj : List ℕ) (imp : ℚ)
    (h : found = true ∧ iw < maxIter)
    (hf : inter_search V routes = some (i, j, nri, nrj, imp)) :
    inter_loop V maxIter routes cd iw ti found =
      inter_loop V maxIter ((routes.set i nri).set j nrj) (cd - imp) 0 (ti + 1)
        true := by
  rw [inter_loop, dif_pos h]
  split
  · rename_i i0 j0 nri0 nrj0 imp0 heq
    rw [hf] at heq
    rcases Option.some.inj heq with h5
    simp only [Prod.mk.injEq] at h5
    obtain ⟨rfl, rfl, rfl, rfl, rfl⟩ := h5
    rfl
  · rename_i heq
    rw [hf] at heq
    exact absurd heq (by simp)

theorem inter_loop_step_none (V : VRP) (maxIter : ℕ) (routes : List (List ℕ))
    (cd : ℚ) (iw ti : ℕ) (found : Bool)
    (h : found = true ∧ iw < maxIter)
    (hf : inter_search V routes = none) :
    inter_loop V maxIter routes cd iw ti found =
      inter_loop V maxIter routes cd (iw + 1) (ti + 1) false := by
  rw [inter_loop, dif_pos h]
  split
  · rename_i i0 j0 nri0 nrj0 imp0 heq
    rw [hf] at heq
    exact absurd heq (by simp)
  · rfl

theorem inter_loop_base (V : VRP) (maxIter : ℕ) (routes : List (List ℕ))
    (cd : ℚ) (iw ti : ℕ) (found : Bool)
    (h : ¬(found = true ∧ iw < maxIter)) :
    inter_loop V maxIter routes cd iw ti found =
      ⟨routes, cd, routes.length, ti, check_feasibility V routes⟩ := by
  rw [inter_loop, dif_neg h]

theorem inter_loop_le (V : VRP) (maxIter : ℕ) :
    ∀ (routes : List (List ℕ)) (cd : ℚ) (iw ti : ℕ) (found : Bool),
    (inter_loop V maxIter routes cd iw ti found).total_distance ≤ cd := by
  intro routes cd iw ti found
  induction routes, cd, iw, ti, found using inter_loop.induct V maxIter with
  | case1 routes cd iw ti found h i j nri nrj imp hf ih =>
    rw [inter_loop_step_some V maxIter routes cd iw ti found i j nri nrj imp h hf]
    have himp := (inter_search_spec V routes i j nri nrj imp hf).2.2.2.2.2.2
    calc (inter_loop V maxIter ((routes.set i nri).set j nrj) (cd - imp) 0
          (ti + 1) true).total_distance
        ≤ cd - imp := ih
      _ ≤ cd := by linarith
  | case2 routes cd iw ti found h hf ih =>
    rw [inter_loop_step_none V maxIter routes cd iw ti found h hf]
    exact ih
  | case3 routes cd iw ti found h =>
    rw [inter_loop_base V maxIter routes cd iw ti found h]

theorem inter_total_set_set (V : VRP) (routes : List (List ℕ)) (i j : ℕ)
    (nri nrj : List ℕ) (hij : i < j) (hj : j < routes.length) :
    calculate_total_distance V ((routes.set i nri).set j nrj) =
      calculate_total_distance V routes
        - calculate_route_distance V (routes.getD i [])
        - calculate_route_distance V (routes.getD j [])
        + calculate_route_distance V nri + calculate_route_distance V nrj := by
  have hi : i < routes.length := lt_trans hij hj
  have hset1 := calculate_total_distance_set V routes i nri hi
  have hj' : j < (routes.set i nri).length := by rw [List.length_set]; exact hj
  have hset2 := calculate_total_distance_set V (routes.set i nri) j nrj hj'
  have hgetj : (routes.set i nri).getD j [] = routes.getD j [] :=
    getD_set_ne routes i j nri [] (Nat.ne_of_lt hij)
  rw [hset2, hgetj, hset1]
  ring

theorem inter_loop_total_eq (V : VRP) (maxIter : ℕ) :
    ∀ (routes : List (List ℕ)) (cd : ℚ) (iw ti : ℕ) (found : Bool),
    cd = calculate_total_distance V routes →
    (inter_loop V maxIter routes cd iw ti found).total_distance =
      calculate_total_distance V
        ((inter_loop V maxIter routes cd iw ti found).routes) := by
  intro routes cd iw ti found
  induction routes, cd, iw, ti, found using inter_loop.induct V maxIter with
  | case1 routes cd iw ti found h i j nri nrj imp hf ih =>
    intro hcd
    rw [inter_loop_step_some V maxIter routes cd iw ti found i j nri nrj imp h hf]
    apply ih
    obtain ⟨hij, hjlen, _, _, _, himp_eq, _⟩ :=
      inter_search_spec V routes i j nri nrj imp hf
    rw [inter_total_set_set V routes i j nri nrj hij hjlen, hcd, himp_eq]
    ring
  | case2 routes cd iw ti found h hf ih =>
    intro hcd
    rw [inter_loop_step_none V maxIter routes cd iw ti found h hf]
    exact ih hcd
  | case3 routes cd iw ti found h =>
    intro hcd
    rw [inter_loop_base V maxIter routes cd iw ti found h]
    exact hcd

theorem inter_loop_inv (V : VRP) (maxIter : ℕ) (P : List (List ℕ) → Prop)
    (hstep : ∀ (routes : List (List ℕ)) (i j : ℕ) (nri nrj : List ℕ) (imp : ℚ),
      inter_search V routes = some (i, j, nri, nrj, imp) → P routes →
      P ((routes.set i nri).set j nrj)) :
    ∀ (routes : List (List ℕ)) (cd : ℚ) (iw ti : ℕ) (found : Bool),
    P routes → P ((inter_loop V maxIter routes cd iw ti found).routes) := by
  intro routes cd iw ti found
  induction routes, cd, iw, ti, found using inter_loop.induct V maxIter with
  | case1 routes cd iw ti found h i j nri nrj imp hf ih =>
    intro hP
    rw [inter_loop_step_some V maxIter routes cd iw ti found i j nri nrj imp h hf]
    exact ih (hstep routes i j nri nrj imp hf hP)
  | case2 routes cd iw ti found h hf ih =>
    intro hP
    rw [inter_loop_step_none V maxIter routes cd iw ti found h hf]
    exact ih hP
  | case3 routes cd iw ti found h =>
    intro hP
    rw [inter_loop_base V maxIter routes cd iw ti found h]
    exact hP

theorem inter_loop_maxIter_irrel (V : VRP) (m1 m2 : ℕ) (hm1 : 1 ≤ m1)
    (hm2 : 1 ≤ m2) :
    ∀ (routes : List (List ℕ)) (cd : ℚ) (iw ti : ℕ) (found : Bool),
    (found = true → iw = 0) →
    inter_loop V m1 routes cd iw ti found =
      inter_loop V m2 routes cd iw ti found := by
  intro routes cd iw ti found
  induction routes, cd, iw, ti, found using inter_loop.induct V m1 with
  | case1 routes cd iw ti found h i j nri nrj imp hf ih =>
    intro hiw
    have h2 : found = true ∧ iw < m2 := ⟨h.1, by rw [hiw h.1]; omega⟩
    rw [inter_loop_step_some V m1 routes cd iw ti found i j nri nrj imp h hf,
      inter_loop_step_some V m2 routes cd iw ti found i j nri nrj imp h2 hf]
    exact ih (fun _ => rfl)
  | case2 routes cd iw ti found h hf ih =>
    intro hiw
    have h2 : found = true ∧ iw < m2 := ⟨h.1, by rw [hiw h.1]; omega⟩
    rw [inter_loop_step_none V m1 routes cd iw ti found h hf,
      inter_loop_step_none V m2 routes cd iw ti found h2 hf]
    exact ih (by intro hff; exact absurd hff (by simp))
  | case3 routes cd iw ti found h =>
    intro hiw
    have hff : found = false := by
      rcases Bool.eq_false_or_eq_true found with htt | hff
      · exact absurd ⟨htt, by rw [hiw htt]; omega⟩ h
      · exact hff
    have h2 : ¬(found = true ∧ iw < m2) := by
      intro hc
      rw [hff] at hc
      exact absurd hc.1 (by simp)
    rw [inter_loop_base V m1 routes cd iw ti found h,
      inter_loop_base V m2 routes cd iw ti found h2]

end TwoOpt

namespace TwoOpt

theorem inter_loop_fixed (V : VRP) (maxIter : ℕ) (hm : 1 ≤ maxIter) :
    ∀ (routes : List (List ℕ)) (cd : ℚ) (iw ti : ℕ) (found : Bool),
    (found = false → inter_search V routes = none) →
    (found = true → iw = 0) →
    inter_search V ((inter_loop V maxIter routes cd iw ti found).routes) = none := by
  intro routes cd iw ti found
  induction routes, cd, iw, ti, found using inter_loop.induct V maxIter with
  | case1 routes cd iw ti found h i j nri nrj imp hf ih =>
    intro _ _
    rw [inter_loop_step_some V maxIter routes cd iw ti found i j nri nrj imp h hf]
    exact ih (by intro hff; exact absurd hff (by simp)) (fun _ => rfl)
  | case2 routes cd iw ti found h hf ih =>
    intro _ _
    rw [inter_loop_step_none V maxIter routes cd iw ti found h hf]
    exact ih (fun _ => hf) (by intro hff; exact absurd hff (by simp))
  | case3 routes cd iw ti found h =>
    intro h1 h2
    rw [inter_loop_base V maxIter routes cd iw ti found h]
    rcases Bool.eq_false_or_eq_true found with htt | hff
    · exact absurd ⟨htt, by rw [h2 htt]; omega⟩ h
    · exact h1 hff

end TwoOpt

/-- Concrete instance used by witnesses and counterexamples: three
customers, all demands zero, capacity zero, all distances zero. -/
def V0 : VRP :=
  { numCustomers := 3
    demands := fun _ => 0
    vehicle_capacity := 0
    num_vehicles := 3
    dist := fun _ _ => 0
    dist_nonneg := fun _ _ => le_refl 0 }

theorem V0_find_none : TwoOpt.find_improvement V0 [[0, 1, 2]] = none := by
  have hpl : TwoOpt.pair_list 3 = [(0, 2)] := by decide
  have hrev : TwoOpt.reverse_segment [0, 1, 2] 0 2 = [0, 2, 1] := by decide
  have hd : ∀ r : List ℕ, calculate_route_distance V0 r = 0 := by
    intro r
    unfold calculate_route_distance
    split
    · rfl
    · generalize (0 : ℕ) = pos
      induction r generalizing pos with
      | nil => simp [route_legs, V0]
      | cons c cs ih =>
        rw [route_legs]
        rcases cs with _ | ⟨c2, cs2⟩
        · simp [route_legs, V0]
        · rw [ih (by simp)]
          simp [V0]
  have himp : TwoOpt.improve_route_2opt V0 [0, 1, 2] = ([0, 1, 2], 0) := by
    unfold TwoOpt.improve_route_2opt
    simp only [List.length_cons, List.length_nil]
    rw [show (0 + 1 + 1 + 1 : ℕ) = 3 from rfl, hpl, List.foldl_cons, List.foldl_nil]
    unfold TwoOpt.move_step
    rw [hrev]
    simp [hd]
  unfold TwoOpt.find_improvement
  rw [if_neg (by norm_num), himp]
  rw [if_neg (by norm_num)]
  simp [TwoOpt.find_improvement]

/-- C3: `improve_solution` and `inter_route_2opt` never return a
`total_distance` larger than the total distance of the initial route list,
for every instance, initial route list and iteration budget. -/
theorem claim_C3 (V : VRP) (routes : List (List ℕ)) (m1 m2 : ℕ) :
    (TwoOpt.improve_solution V routes m1).total_distance ≤
      calculate_total_distance V routes ∧
    (TwoOpt.inter_route_2opt V routes m2).total_distance ≤
      calculate_total_distance V routes :=
  ⟨TwoOpt.improve_loop_le V m1 routes (calculate_total_distance V routes) 0 0 true,
   TwoOpt.inter_loop_le V m2 routes (calculate_total_distance V routes) 0 0 true⟩

/-- C10: the incrementally maintained `total_distance` returned by
`improve_solution` and `inter_route_2opt` equals the per-route distance sum
recomputed from the returned routes (exact arithmetic). -/
theorem claim_C10 (V : VRP) (routes : List (List ℕ)) (m1 m2 : ℕ) :
    (TwoOpt.improve_solution V routes m1).total_distance =
      calculate_total_distance V ((TwoOpt.improve_solution V routes m1).routes) ∧
    (TwoOpt.inter_route_2opt V routes m2).total_distance =
      calculate_total_distance V ((TwoOpt.inter_route_2opt V routes m2).routes) :=
  ⟨TwoOpt.improve_loop_total_eq V m1 routes (calculate_total_distance V routes)
      0 0 true rfl,
   TwoOpt.inter_loop_total_eq V m2 routes (calculate_total_distance V routes)
      0 0 true rfl⟩

/-- C4: `improve_solution` is idempotent: re-running it on the routes of a
first call (with the same iteration budget) returns the same routes and the
same total distance. -/
theorem claim_C4 (V : VRP) (routes : List (List ℕ)) (m : ℕ) :
    (TwoOpt.improve_solution V
        ((TwoOpt.improve_solution V routes m).routes) m).routes =
      (TwoOpt.improve_solution V routes m).routes ∧
    (TwoOpt.improve_solution V
        ((TwoOpt.improve_solution V routes m).routes) m).total_distance =
      (TwoOpt.improve_solution V routes m).total_distance := by
  by_cases hm : 1 ≤ m
  · have hnone : TwoOpt.find_improvement V
        ((TwoOpt.improve_solution V routes m).routes) = none :=
      TwoOpt.improve_loop_fixed V m hm routes
        (calculate_total_distance V routes) 0 0 true
        (by intro hff; exact absurd hff (by simp)) (fun _ => rfl)
    have e2 : TwoOpt.improve_solution V
        ((TwoOpt.improve_solution V routes m).routes) m =
        ⟨(TwoOpt.improve_solution V routes m).routes,
          calculate_total_distance V ((TwoOpt.improve_solution V routes m).routes),
          (TwoOpt.improve_solution V routes m).routes.length, 1,
          check_feasibility V ((TwoOpt.improve_solution V routes m).routes)⟩ := by
      rw [TwoOpt.improve_solution,
        TwoOpt.improve_loop_step_none V m
          ((TwoOpt.improve_solution V routes m).routes)
          (calculate_total_distance V ((TwoOpt.improve_solution V routes m).routes))
          0 0 true ⟨rfl, hm⟩ hnone,
        TwoOpt.improve_loop_base V m _ _ 1 1 false (by simp)]
    rw [e2]
    constructor
    · rfl
    · exact (TwoOpt.improve_loop_total_eq V m routes
        (calculate_total_distance V routes) 0 0 true rfl).symm
  · have hm0 : m = 0 := by omega
    subst hm0
    have e : ∀ rs : List (List ℕ), TwoOpt.improve_solution V rs 0 =
        ⟨rs, calculate_total_distance V rs, rs.length, 0,
          check_feasibility V rs⟩ := by
      intro rs
      rw [TwoOpt.improve_solution,
        TwoOpt.improve_loop_base V 0 rs _ 0 0 true (by simp)]
    rw [e routes, e]
    exact ⟨rfl, rfl⟩

/-- C8 (amended): both improvement loops are total functions (they
terminate on every input), but they do not run `max_iterations` consecutive
non-improving passes: each loop stops right after the first pass that finds
no improvement, so for every `max_iterations ≥ 1` the result coincides with
the result for `max_iterations = 1`, and at exit no improving move remains;
`improvement_iterations` reports the number of passes actually executed. -/
theorem claim_C8 (V : VRP) (routes : List (List ℕ)) (m : ℕ) (hm : 1 ≤ m) :
    TwoOpt.improve_solution V routes m = TwoOpt.improve_solution V routes 1 ∧
    TwoOpt.inter_route_2opt V routes m = TwoOpt.inter_route_2opt V routes 1 ∧
    TwoOpt.find_improvement V ((TwoOpt.improve_solution V routes m).routes) = none ∧
    TwoOpt.inter_search V ((TwoOpt.inter_route_2opt V routes m).routes) = none := by
  refine ⟨?_, ?_, ?_, ?_⟩
  · exact TwoOpt.improve_loop_maxIter_irrel V m 1 hm (le_refl 1) routes
      (calculate_total_distance V routes) 0 0 true (fun _ => rfl)
  · exact TwoOpt.inter_loop_maxIter_irrel V m 1 hm (le_refl 1) routes
      (calculate_total_distance V routes) 0 0 true (fun _ => rfl)
  · exact TwoOpt.improve_loop_fixed V m hm routes
      (calculate_total_distance V routes) 0 0 true
      (by intro hff; exact absurd hff (by simp)) (fun _ => rfl)
  · exact TwoOpt.inter_loop_fixed V m hm routes
      (calculate_total_distance V routes) 0 0 true
      (by intro hff; exact absurd hff (by simp)) (fun _ => rfl)

/-- C8 witness: the amended statement instantiated at the concrete instance
`V0` with `max_iterations = 5`. -/
theorem claim_C8_witness :
    (1 ≤ 5) ∧
    (TwoOpt.improve_solution V0 [[0, 1, 2]] 5 =
        TwoOpt.improve_solution V0 [[0, 1, 2]] 1 ∧
      TwoOpt.inter_route_2opt V0 [[0, 1, 2]] 5 =
        TwoOpt.inter_route_2opt V0 [[0, 1, 2]] 1 ∧
      TwoOpt.find_improvement V0
        ((TwoOpt.improve_solution V0 [[0, 1, 2]] 5).routes) = none ∧
      TwoOpt.inter_search V0
        ((TwoOpt.inter_route_2opt V0 [[0, 1, 2]] 5).routes) = none) :=
  ⟨by norm_num, claim_C8 V0 [[0, 1, 2]] 5 (by norm_num)⟩

/-- C8 counterexample: at the all-zero three-customer instance, with the
already-optimal route `[0, 1, 2]` and `max_iterations = 2`, the first pass
finds no improvement and the loop exits at once: `improvement_iterations`
is `1`, not the `2` consecutive non-improving passes the claim requires. -/
theorem claim_C8_counterexample :
    (TwoOpt.improve_solution V0 [[0, 1, 2]] 2).improvement_iterations = 1 ∧
    ¬(2 ≤ (TwoOpt.improve_solution V0 [[0, 1, 2]] 2).improvement_iterations) := by
  have e : TwoOpt.improve_solution V0 [[0, 1, 2]] 2 =
      ⟨[[0, 1, 2]], calculate_total_distance V0 [[0, 1, 2]], 1, 1,
        check_feasibility V0 [[0, 1, 2]]⟩ := by
    rw [TwoOpt.improve_solution,
      TwoOpt.improve_loop_step_none V0 2 [[0, 1, 2]] _ 0 0 true
        ⟨rfl, by norm_num⟩ V0_find_none,
      TwoOpt.improve_loop_base V0 2 [[0, 1, 2]] _ 1 1 false (by simp)]
    rfl
  rw [e]
  exact ⟨rfl, by norm_num⟩

namespace TwoOpt

theorem pair_list_mem (n i j : ℕ) :
    (i, j) ∈ pair_list n ↔ i < n - 1 ∧ i + 2 ≤ j ∧ j < n := by
  unfold pair_list
  simp only [List.mem_flatMap, List.mem_map, List.mem_range, List.mem_range'_1,
    Prod.mk.injEq]
  constructor
  · rintro ⟨a, ha, b, ⟨hb1, hb2⟩, rfl, rfl⟩
    omega
  · rintro ⟨h1, h2, h3⟩
    exact ⟨i, h1, j, ⟨h2, by omega⟩, rfl, rfl⟩

theorem move_step_or (V : VRP) (route : List ℕ) (b : List ℕ × ℚ) (p : ℕ × ℕ) :
    move_step V route b p = b ∨
      (is_route_feasible V (reverse_segment route p.1 p.2) = true ∧
        move_step V route b p =
          (reverse_segment route p.1 p.2,
            calculate_route_distance V route
              - calculate_route_distance V (reverse_segment route p.1 p.2))) := by
  unfold move_step
  split
  · split
    · rename_i hfeas _
      exact Or.inr ⟨hfeas, rfl⟩
    · exact Or.inl rfl
  · exact Or.inl rfl

theorem move_step_le (V : VRP) (route : List ℕ) (b : List ℕ × ℚ) (p : ℕ × ℕ) :
    b.2 ≤ (move_step V route b p).2 := by
  unfold move_step
  split
  · split
    · rename_i hlt
      simp only
      linarith
    · exact le_refl _
  · exact le_refl _

theorem move_step_ge (V : VRP) (route : List ℕ) (b : List ℕ × ℚ) (p : ℕ × ℕ)
    (hfeas : is_route_feasible V (reverse_segment route p.1 p.2) = true) :
    calculate_route_distance V route
        - calculate_route_distance V (reverse_segment route p.1 p.2) ≤
      (move_step V route b p).2 := by
  unfold move_step
  rw [if_pos hfeas]
  split
  · exact le_refl _
  · rename_i hlt
    push_neg at hlt
    exact hlt

theorem foldl_move_le (V : VRP) (route : List ℕ) :
    ∀ (l : List (ℕ × ℕ)) (b : List ℕ × ℚ),
    b.2 ≤ (l.foldl (move_step V route) b).2 := by
  intro l
  induction l with
  | nil => intro b; exact le_refl _
  | cons p rest ih =>
    intro b
    rw [List.foldl_cons]
    exact le_trans (move_step_le V route b p) (ih (move_step V route b p))

theorem foldl_move_ge (V : VRP) (route : List ℕ) :
    ∀ (l : List (ℕ × ℕ)) (b : List ℕ × ℚ) (p : ℕ × ℕ), p ∈ l →
    is_route_feasible V (reverse_segment route p.1 p.2) = true →
    calculate_route_distance V route
        - calculate_route_distance V (reverse_segment route p.1 p.2) ≤
      (l.foldl (move_step V route) b).2 := by
  intro l
  induction l with
  | nil => intro b p hp; exact absurd hp (by simp)
  | cons q rest ih =>
    intro b p hp hfeas
    rw [List.foldl_cons]
    rcases List.mem_cons.mp hp with rfl | hp'
    · exact le_trans (move_step_ge V route b p hfeas)
        (foldl_move_le V route rest (move_step V route b p))
    · exact ih (move_step V route b q) p hp' hfeas

theorem foldl_move_cases (V : VRP) (route : List ℕ) :
    ∀ (l : List (ℕ × ℕ)) (b : List ℕ × ℚ),
    l.foldl (move_step V route) b = b ∨
      ∃ p ∈ l, is_route_feasible V (reverse_segment route p.1 p.2) = true ∧
        l.foldl (move_step V route) b =
          (reverse_segment route p.1 p.2,
            calculate_route_distance V route
              - calculate_route_distance V (reverse_segment route p.1 p.2)) := by
  intro l
  induction l with
  | nil => intro b; exact Or.inl rfl
  | cons q rest ih =>
    intro b
    rw [List.foldl_cons]
    rcases ih (move_step V route b q) with h | ⟨p, hp, hfeas, heq⟩
    · rw [h]
      rcases move_step_or V route b q with h2 | ⟨hfeas, h2⟩
      · exact Or.inl h2
      · exact Or.inr ⟨q, List.mem_cons_self _ _, hfeas, h2⟩
    · exact Or.inr ⟨p, List.mem_cons_of_mem _ hp, hfeas, heq⟩

end TwoOpt

/-- C5: for every route, `_improve_route_2opt` returns the best (maximum)
improvement over all enumerated edge pairs: every feasible candidate's
improvement is at most the returned one, and the returned route either is
the unmodified route (with improvement `0`) or realizes one of the
enumerated feasible candidates with exactly its improvement; moreover a
route modification is accepted in `improve_solution`'s scan only when that
best improvement is at least the `0.001` threshold (the code demands
strictly more than `0.001`). -/
theorem claim_C5 (V : VRP) (route : List ℕ) :
    (∀ i j : ℕ, (i, j) ∈ TwoOpt.pair_list route.length →
      is_route_feasible V (TwoOpt.reverse_segment route i j) = true →
      calculate_route_distance V route
          - calculate_route_distance V (TwoOpt.reverse_segment route i j) ≤
        (TwoOpt.improve_route_2opt V route).2) ∧
    (TwoOpt.improve_route_2opt V route = (route, 0) ∨
      ∃ i j : ℕ, (i, j) ∈ TwoOpt.pair_list route.length ∧
        is_route_feasible V (TwoOpt.reverse_segment route i j) = true ∧
        TwoOpt.improve_route_2opt V route =
          (TwoOpt.reverse_segment route i j,
            calculate_route_distance V route
              - calculate_route_distance V (TwoOpt.reverse_segment route i j))) ∧
    (∀ (rs : List (List ℕ)) (idx : ℕ) (r' : List ℕ) (imp : ℚ),
      TwoOpt.find_improvement V rs = some (idx, r', imp) →
      TwoOpt.improve_route_2opt V (rs.getD idx []) = (r', imp) ∧
        1 / 1000 ≤ imp) := by
  refine ⟨?_, ?_, ?_⟩
  · intro i j hmem hfeas
    exact TwoOpt.foldl_move_ge V route (TwoOpt.pair_list route.length)
      (route, 0) (i, j) hmem hfeas
  · rcases TwoOpt.foldl_move_cases V route (TwoOpt.pair_list route.length)
        (route, 0) with h | ⟨p, hp, hfeas, heq⟩
    · exact Or.inl h
    · exact Or.inr ⟨p.1, p.2, hp, hfeas, heq⟩
  · intro rs idx r' imp hf
    obtain ⟨_, _, heq, himp⟩ := TwoOpt.find_improvement_spec V rs idx r' imp hf
    exact ⟨heq, le_of_lt himp⟩

/-- C5 witness: at the all-zero instance, the candidate pair `(0, 2)` of the
route `[0, 1, 2]` is enumerated, its reversal is feasible, and its
improvement is bounded by the returned best improvement. -/
theorem claim_C5_witness :
    ((0, 2) ∈ TwoOpt.pair_list ([0, 1, 2] : List ℕ).length) ∧
    is_route_feasible V0 (TwoOpt.reverse_segment [0, 1, 2] 0 2) = true ∧
    calculate_route_distance V0 [0, 1, 2]
        - calculate_route_distance V0 (TwoOpt.reverse_segment [0, 1, 2] 0 2) ≤
      (TwoOpt.improve_route_2opt V0 [0, 1, 2]).2 :=
  ⟨by decide, by decide, (claim_C5 V0 [0, 1, 2]).1 0 2 (by decide) (by decide)⟩

namespace Savings

theorem endpoint_iff (r : List ℕ) (c : ℕ) (h : r ≠ []) :
    (r.headD 0 = c ∨ r.getLastD 0 = c) ↔
      (r.head? = some c ∨ r.getLast? = some c) := by
  cases r with
  | nil => exact absurd rfl h
  | cons a as =>
    obtain ⟨y, hy⟩ : ∃ y, (a :: as).getLast? = some y :=
      ⟨(a :: as).getLast (by simp), List.getLast?_eq_getLast _ (by simp)⟩
    rw [List.headD_eq_head?, List.getLastD_eq_getLast?, hy]
    simp

theorem can_merge_routes_iff (V : VRP) (r1 r2 : List ℕ) (l1 l2 : ℤ)
    (ci cj : ℕ) (h1 : r1 ≠ []) (h2 : r2 ≠ []) :
    can_merge_routes V r1 r2 l1 l2 ci cj = true ↔
      l1 + l2 ≤ V.vehicle_capacity ∧
        (r1.head? = some ci ∨ r1.getLast? = some ci) ∧
        (r2.head? = some cj ∨ r2.getLast? = some cj) := by
  unfold can_merge_routes
  by_cases hcap : V.vehicle_capacity < l1 + l2
  · rw [if_pos hcap]
    constructor
    · intro hc
      exact absurd hc (by simp)
    · rintro ⟨hle, _, _⟩
      omega
  · rw [if_neg hcap]
    push_neg at hcap
    simp only [Bool.and_eq_true, decide_eq_true_eq]
    rw [endpoint_iff r1 ci h1, endpoint_iff r2 cj h2]
    constructor
    · rintro ⟨ha, hb⟩
      exact ⟨hcap, ha, hb⟩
    · rintro ⟨_, ha, hb⟩
      exact ⟨ha, hb⟩

end Savings

/-- C6: `_can_merge_routes` holds exactly when the combined load of the two
routes fits the vehicle capacity and each of the two customers is the first
or last element of its own route; in the savings loop, an entry whose two
customers already share a route leaves the state unchanged, an eligible
entry performs the merge (merged route into `route_i`, `route_j` emptied,
mapping redirected), and an ineligible entry changes nothing. -/
theorem claim_C6 (V : VRP) :
    (∀ (r1 r2 : List ℕ) (l1 l2 : ℤ) (ci cj : ℕ), r1 ≠ [] → r2 ≠ [] →
      (Savings.can_merge_routes V r1 r2 l1 l2 ci cj = true ↔
        l1 + l2 ≤ V.vehicle_capacity ∧
          (r1.head? = some ci ∨ r1.getLast? = some ci) ∧
          (r2.head? = some cj ∨ r2.getLast? = some cj))) ∧
    (∀ (st : Savings.SavState) (ci cj : ℕ), st.cr ci = st.cr cj →
      Savings.merge_step V st ci cj = st) ∧
    (∀ (st : Savings.SavState) (ci cj : ℕ), st.cr ci ≠ st.cr cj →
      Savings.can_merge_routes V (st.routes.getD (st.cr ci) [])
          (st.routes.getD (st.cr cj) []) (st.loads.getD (st.cr ci) 0)
          (st.loads.getD (st.cr cj) 0) ci cj = false →
      Savings.merge_step V st ci cj = st) ∧
    (∀ (st : Savings.SavState) (ci cj : ℕ), st.cr ci ≠ st.cr cj →
      Savings.can_merge_routes V (st.routes.getD (st.cr ci) [])
          (st.routes.getD (st.cr cj) []) (st.loads.getD (st.cr ci) 0)
          (st.loads.getD (st.cr cj) 0) ci cj = true →
      Savings.merge_step V st ci cj =
        { routes := (st.routes.set (st.cr ci)
              (Savings.merge_routes V (st.routes.getD (st.cr ci) [])
                (st.routes.getD (st.cr cj) []) ci cj).1).set (st.cr cj) []
          loads := (st.loads.set (st.cr ci)
              (Savings.merge_routes V (st.routes.getD (st.cr ci) [])
                (st.routes.getD (st.cr cj) []) ci cj).2).set (st.cr cj) 0
          cr := fun c => if c ∈ st.routes.getD (st.cr cj) [] then st.cr ci
            else st.cr c }) := by
  refine ⟨?_, ?_, ?_, ?_⟩
  · intro r1 r2 l1 l2 ci cj h1 h2
    exact Savings.can_merge_routes_iff V r1 r2 l1 l2 ci cj h1 h2
  · intro st ci cj heq
    unfold Savings.merge_step
    rw [if_pos heq]
  · intro st ci cj hne hcan
    unfold Savings.merge_step
    rw [if_neg hne, if_neg (by rw [hcan]; simp)]
  · intro st ci cj hne hcan
    unfold Savings.merge_step
    rw [if_neg hne, if_pos hcan]

/-- C6 witness: a concrete eligible merge at the all-zero instance: the
initial singleton routes `[0]` and `[1]` can be merged for the pair
`(0, 1)`. -/
theorem claim_C6_witness :
    (([0] : List ℕ) ≠ []) ∧ (([1] : List ℕ) ≠ []) ∧
    (Savings.can_merge_routes V0 [0] [1] 0 0 0 1 = true ↔
      (0 : ℤ) + 0 ≤ V0.vehicle_capacity ∧
        (([0] : List ℕ).head? = some 0 ∨ ([0] : List ℕ).getLast? = some 0) ∧
        (([1] : List ℕ).head? = some 1 ∨ ([1] : List ℕ).getLast? = some 1)) :=
  ⟨by decide, by decide,
    (claim_C6 V0).1 [0] [1] 0 0 0 1 (by decide) (by decide)⟩

namespace Savings

theorem savings_list_perm (V : VRP) :
    (savings_list V).Perm (savings_raw V) :=
  List.mergeSort_perm (savings_raw V) _

theorem savings_raw_mem (V : VRP) (i j : ℕ) (hij : i < j)
    (hj : j < V.numCustomers) :
    (i, j, V.dist 0 (i + 1) + V.dist 0 (j + 1) - V.dist (i + 1) (j + 1)) ∈
      savings_raw V := by
  unfold savings_raw
  simp only [List.mem_flatMap, List.mem_map, List.mem_range, List.mem_range'_1,
    Prod.mk.injEq]
  exact ⟨i, by omega, j, ⟨by omega, by omega⟩, rfl, rfl, rfl⟩

theorem savings_raw_mem_rev (V : VRP) :
    ∀ e ∈ savings_raw V, ∃ i j : ℕ, i < j ∧ j < V.numCustomers ∧
      e = (i, j, V.dist 0 (i + 1) + V.dist 0 (j + 1) - V.dist (i + 1) (j + 1)) := by
  intro e he
  unfold savings_raw at he
  simp only [List.mem_flatMap, List.mem_map, List.mem_range,
    List.mem_range'_1] at he
  obtain ⟨a, ha, b, ⟨hb1, hb2⟩, rfl⟩ := he
  exact ⟨a, b, by omega, by omega, rfl⟩

theorem savings_raw_nodup (V : VRP) : (savings_raw V).Nodup := by
  unfold savings_raw
  rw [List.nodup_flatMap]
  constructor
  · intro i _
    apply List.Nodup.map _ (List.nodup_range' _ _)
    intro a b hab
    simp only [Prod.mk.injEq] at hab
    exact hab.2.1
  · apply List.Pairwise.imp _ (List.pairwise_lt_range _)
    intro a b hab
    intro x hx1 hx2
    simp only [List.mem_map] at hx1 hx2
    obtain ⟨j1, _, rfl⟩ := hx1
    obtain ⟨j2, _, heq⟩ := hx2
    simp only [Prod.mk.injEq] at heq
    omega

theorem savings_list_sorted (V : VRP) :
    List.Pairwise (fun a b : ℕ × ℕ × ℚ => b.2.2 ≤ a.2.2) (savings_list V) := by
  have htrans : ∀ a b c : ℕ × ℕ × ℚ,
      (fun a b : ℕ × ℕ × ℚ => decide (b.2.2 ≤ a.2.2)) a b = true →
      (fun a b : ℕ × ℕ × ℚ => decide (b.2.2 ≤ a.2.2)) b c = true →
      (fun a b : ℕ × ℕ × ℚ => decide (b.2.2 ≤ a.2.2)) a c = true := by
    intro a b c h1 h2
    simp only [decide_eq_true_eq] at h1 h2 ⊢
    exact le_trans h2 h1
  have htotal : ∀ a b : ℕ × ℕ × ℚ,
      ((fun a b : ℕ × ℕ × ℚ => decide (b.2.2 ≤ a.2.2)) a b ||
        (fun a b : ℕ × ℕ × ℚ => decide (b.2.2 ≤ a.2.2)) b a) = true := by
    intro a b
    simp only [Bool.or_eq_true, decide_eq_true_eq]
    exact le_total b.2.2 a.2.2
  have h := List.sorted_mergeSort htrans htotal (savings_raw V)
  apply List.Pairwise.imp _ h
  intro a b hab
  exact of_decide_eq_true hab

theorem process_savings_takeWhile (V : VRP) :
    ∀ (l : List (ℕ × ℕ × ℚ)) (st : SavState),
    process_savings V st l =
      process_savings V st (l.takeWhile fun e => decide (0 < e.2.2)) := by
  intro l
  induction l with
  | nil => intro st; rfl
  | cons e rest ih =>
    intro st
    rcases e with ⟨i, j, s⟩
    rw [List.takeWhile_cons]
    by_cases hs : s ≤ 0
    · rw [if_neg (by simp only [decide_eq_true_eq]; intro hc; exact absurd hc (by linarith))]
      simp only [process_savings]
      rw [if_pos hs]
    · push_neg at hs
      rw [if_pos (by simp only [decide_eq_true_eq]; exact hs)]
      simp only [process_savings]
      rw [if_neg (by linarith), if_neg (by linarith)]
      exact ih (merge_step V st i j)

end Savings

/-- C7: the sorted savings list is a permutation of the raw pair
enumeration, contains the entry `(i, j, dist(0,i) + dist(0,j) - dist(i,j))`
for every pair `i < j` and nothing else (each exactly once: the list is
duplicate-free), is sorted by savings value in descending order, and the
merging loop consumes exactly the positive-savings prefix: processing a
savings list equals processing its `takeWhile (0 < savings)` prefix, so no
merge is ever performed for a non-positive entry. -/
theorem claim_C7 (V : VRP) :
    (Savings.savings_list V).Perm (Savings.savings_raw V) ∧
    List.Pairwise (fun a b : ℕ × ℕ × ℚ => b.2.2 ≤ a.2.2)
      (Savings.savings_list V) ∧
    (Savings.savings_list V).Nodup ∧
    (∀ i j : ℕ, i < j → j < V.numCustomers →
      (i, j, V.dist 0 (i + 1) + V.dist 0 (j + 1) - V.dist (i + 1) (j + 1)) ∈
        Savings.savings_list V) ∧
    (∀ e ∈ Savings.savings_list V, ∃ i j : ℕ, i < j ∧ j < V.numCustomers ∧
      e = (i, j, V.dist 0 (i + 1) + V.dist 0 (j + 1) - V.dist (i + 1) (j + 1))) ∧
    (∀ (st : Savings.SavState) (l : List (ℕ × ℕ × ℚ)),
      Savings.process_savings V st l =
        Savings.process_savings V st (l.takeWhile fun e => decide (0 < e.2.2))) := by
  refine ⟨Savings.savings_list_perm V, Savings.savings_list_sorted V, ?_, ?_, ?_, ?_⟩
  · exact (Savings.savings_list_perm V).nodup_iff.mpr (Savings.savings_raw_nodup V)
  · intro i j hij hj
    exact (Savings.savings_list_perm V).mem_iff.mpr
      (Savings.savings_raw_mem V i j hij hj)
  · intro e he
    exact Savings.savings_raw_mem_rev V e
      ((Savings.savings_list_perm V).mem_iff.mp he)
  · intro st l
    exact Savings.process_savings_takeWhile V l st

/-- C7 witness: at the all-zero instance the savings entry for the pair
`(0, 1)` is present in the sorted savings list. -/
theorem claim_C7_witness :
    (0 < 1 ∧ 1 < V0.numCustomers) ∧
    (0, 1, V0.dist 0 (0 + 1) + V0.dist 0 (1 + 1) - V0.dist (0 + 1) (1 + 1)) ∈
      Savings.savings_list V0 :=
  ⟨⟨by norm_num, by decide⟩,
    (claim_C7 V0).2.2.2.1 0 1 (by norm_num) (by decide)⟩

theorem sum_set_nat (L : List ℕ) (n a : ℕ) (h : n < L.length) :
    (L.set n a).sum + L[n] = L.sum + a := by
  rw [List.sum_set, if_pos h, sum_take_getElem_drop L n h]
  omega

theorem count_flatten_set (rs : List (List ℕ)) (k : ℕ) (a : List ℕ)
    (hk : k < rs.length) (x : ℕ) :
    ((rs.set k a).flatten).count x + (rs.getD k []).count x =
      rs.flatten.count x + a.count x := by
  rw [List.count_flatten, List.count_flatten, List.map_set]
  have hk' : k < (rs.map (List.count x)).length := by simpa
  have h := sum_set_nat (rs.map (List.count x)) k (a.count x) hk'
  rw [List.getElem_map] at h
  rw [List.getD_eq_getElem rs [] hk]
  omega

theorem flatten_set_set_perm (rs : List (List ℕ)) (i j : ℕ) (a : List ℕ)
    (hi : i < rs.length) (hj : j < rs.length) (hij : i ≠ j)
    (ha : a.Perm (rs.getD i [] ++ rs.getD j [])) :
    (((rs.set i a).set j []).flatten).Perm rs.flatten := by
  rw [List.perm_iff_count]
  intro x
  have hj' : j < (rs.set i a).length := by rw [List.length_set]; exact hj
  have h1 := count_flatten_set (rs.set i a) j [] hj' x
  have h2 := count_flatten_set rs i a hi x
  have h3 : (rs.set i a).getD j [] = rs.getD j [] := getD_set_ne rs i j a [] hij
  have h4 : a.count x = (rs.getD i []).count x + (rs.getD j []).count x := by
    rw [ha.count_eq, List.count_append]
  rw [h3] at h1
  simp only [List.count_nil] at h1
  omega

theorem flatten_sublist {l1 l2 : List (List ℕ)} (h : List.Sublist l1 l2) :
    List.Sublist l1.flatten l2.flatten := by
  induction h with
  | slnil => exact List.Sublist.refl _
  | cons a h ih =>
    simp only [List.flatten_cons]
    exact List.Sublist.trans ih (List.sublist_append_right _ _)
  | cons₂ a h ih =>
    simp only [List.flatten_cons]
    exact List.Sublist.append_left ih _

theorem flatten_filter_nonempty (rs : List (List ℕ)) :
    (rs.filter fun r => !r.isEmpty).flatten = rs.flatten := by
  induction rs with
  | nil => rfl
  | cons r rest ih =>
    by_cases hr : r = []
    · subst hr
      simp [ih]
    · rw [List.filter_cons, if_pos (by simpa using hr)]
      simp [ih]

namespace Savings

theorem merge_routes_perm (V : VRP) (r1 r2 : List ℕ) (ci cj : ℕ) :
    ((merge_routes V r1 r2 ci cj).1).Perm (r1 ++ r2) := by
  unfold merge_routes
  simp only
  generalize hip : (if r1.headD 0 = ci then 0 else r1.length - 1) = ip
  generalize hjp : (if r2.headD 0 = cj then 0 else r2.length - 1) = jp
  have hip2 : ip = 0 ∨ ip = r1.length - 1 := by
    rcases Decidable.em (r1.headD 0 = ci) with h | h
    · rw [if_pos h] at hip
      exact Or.inl hip.symm
    · rw [if_neg h] at hip
      exact Or.inr hip.symm
  have hjp2 : jp = 0 ∨ jp = r2.length - 1 := by
    rcases Decidable.em (r2.headD 0 = cj) with h | h
    · rw [if_pos h] at hjp
      exact Or.inl hjp.symm
    · rw [if_neg h] at hjp
      exact Or.inr hjp.symm
  split
  · exact List.Perm.refl _
  · split
    · exact List.perm_append_comm
    · split
      · exact List.Perm.append_left r1 (List.reverse_perm r2)
      · split
        · exact List.Perm.append (List.reverse_perm r1) (List.Perm.refl r2)
        · rename_i h1 h2 h3 h4
          exfalso
          omega

theorem merge_routes_load (V : VRP) (r1 r2 : List ℕ) (ci cj : ℕ) :
    (merge_routes V r1 r2 ci cj).2 =
      route_load V (merge_routes V r1 r2 ci cj).1 := rfl

theorem merge_step_same (V : VRP) (st : SavState) (ci cj : ℕ)
    (h : st.cr ci = st.cr cj) : merge_step V st ci cj = st := by
  unfold merge_step
  rw [if_pos h]

theorem merge_step_not_can (V : VRP) (st : SavState) (ci cj : ℕ)
    (h : st.cr ci ≠ st.cr cj)
    (hc : can_merge_routes V (st.routes.getD (st.cr ci) [])
      (st.routes.getD (st.cr cj) []) (st.loads.getD (st.cr ci) 0)
      (st.loads.getD (st.cr cj) 0) ci cj = false) :
    merge_step V st ci cj = st := by
  unfold merge_step
  rw [if_neg h, if_neg (by rw [hc]; simp)]

theorem merge_step_can (V : VRP) (st : SavState) (ci cj : ℕ)
    (h : st.cr ci ≠ st.cr cj)
    (hc : can_merge_routes V (st.routes.getD (st.cr ci) [])
      (st.routes.getD (st.cr cj) []) (st.loads.getD (st.cr ci) 0)
      (st.loads.getD (st.cr cj) 0) ci cj = true) :
    merge_step V st ci cj =
      { routes := (st.routes.set (st.cr ci)
            (merge_routes V (st.routes.getD (st.cr ci) [])
              (st.routes.getD (st.cr cj) []) ci cj).1).set (st.cr cj) []
        loads := (st.loads.set (st.cr ci)
            (merge_routes V (st.routes.getD (st.cr ci) [])
              (st.routes.getD (st.cr cj) []) ci cj).2).set (st.cr cj) 0
        cr := fun c => if c ∈ st.routes.getD (st.cr cj) [] then st.cr ci
          else st.cr c } := by
  unfold merge_step
  rw [if_neg h, if_pos hc]

theorem process_savings_inv (V : VRP) (N : ℕ) (P : SavState → Prop)
    (hstep : ∀ (st : SavState) (ci cj : ℕ), ci < N → cj < N → P st →
      P (merge_step V st ci cj)) :
    ∀ (l : List (ℕ × ℕ × ℚ)) (st : SavState),
    (∀ e ∈ l, e.1 < N ∧ e.2.1 < N) → P st → P (process_savings V st l) := by
  intro l
  induction l with
  | nil => intro st _ hP; exact hP
  | cons e rest ih =>
    intro st hl hP
    rcases e with ⟨i, j, s⟩
    simp only [process_savings]
    split
    · exact hP
    · apply ih _ (fun e he => hl e (List.mem_cons_of_mem _ he))
      exact hstep st i j (hl _ (List.mem_cons_self _ _)).1
        (hl _ (List.mem_cons_self _ _)).2 hP

theorem savings_list_bounds (V : VRP) :
    ∀ e ∈ savings_list V, e.1 < V.numCustomers ∧ e.2.1 < V.numCustomers := by
  intro e he
  obtain ⟨i, j, hij, hj, rfl⟩ := savings_raw_mem_rev V e
    ((savings_list_perm V).mem_iff.mp he)
  exact ⟨lt_trans hij hj, hj⟩

theorem flatten_map_singleton (l : List ℕ) :
    (l.map fun i => [i]).flatten = l := by
  induction l with
  | nil => rfl
  | cons a rest ih => simp [ih]

theorem init_state_routes_length (V : VRP) :
    (init_state V).routes.length = V.numCustomers := by
  simp [init_state]

theorem init_state_flatten (V : VRP) :
    (init_state V).routes.flatten = List.range V.numCustomers := by
  unfold init_state
  exact flatten_map_singleton _

theorem final_state_partition (V : VRP) :
    (final_state V).routes.length = V.numCustomers ∧
    (∀ c, c < V.numCustomers → (final_state V).cr c < V.numCustomers) ∧
    ((final_state V).routes.flatten).Perm (List.range V.numCustomers) := by
  have h := process_savings_inv V V.numCustomers
    (fun st => st.routes.length = V.numCustomers ∧
      (∀ c, c < V.numCustomers → st.cr c < V.numCustomers) ∧
      (st.routes.flatten).Perm (List.range V.numCustomers))
    ?hstep (savings_list V) (init_state V) (savings_list_bounds V)
    ⟨init_state_routes_length V, fun c hc => by simpa [init_state] using hc,
      by rw [init_state_flatten]⟩
  · exact h
  case hstep =>
    intro st ci cj hci hcj ⟨hlen, hcr, hperm⟩
    by_cases hsame : st.cr ci = st.cr cj
    · rw [merge_step_same V st ci cj hsame]
      exact ⟨hlen, hcr, hperm⟩
    · by_cases hcan : can_merge_routes V (st.routes.getD (st.cr ci) [])
          (st.routes.getD (st.cr cj) []) (st.loads.getD (st.cr ci) 0)
          (st.loads.getD (st.cr cj) 0) ci cj = true
      · rw [merge_step_can V st ci cj hsame hcan]
        refine ⟨by simp [hlen], ?_, ?_⟩
        · intro c hc
          simp only
          split
          · exact hcr ci hci
          · exact hcr c hc
        · apply List.Perm.trans _ hperm
          apply flatten_set_set_perm
          · rw [hlen]; exact hcr ci hci
          · rw [hlen]; exact hcr cj hcj
          · exact hsame
          · exact merge_routes_perm V _ _ ci cj
      · rw [merge_step_not_can V st ci cj hsame
          (Bool.eq_false_iff.mpr (fun hcc => hcan hcc))]
        exact ⟨hlen, hcr, hperm⟩

theorem map_fst_pairs (V : VRP) (l : List (List ℕ)) :
    ((l.map fun r => (r, calculate_route_distance V r)).map
      fun x : List ℕ × ℚ => x.1) = l := by
  rw [List.map_map]
  have : ((fun x : List ℕ × ℚ => x.1) ∘ fun r => (r, calculate_route_distance V r)) =
      fun r : List ℕ => r := rfl
  rw [this]
  exact List.map_id l

theorem kept_routes_subperm (V : VRP) :
    List.Subperm (kept_routes V) (final_routes V) := by
  unfold kept_routes
  split
  · have hsub := List.Sublist.map (fun x : List ℕ × ℚ => x.1)
      (List.take_sublist V.num_vehicles
        (((final_routes V).map fun r => (r, calculate_route_distance V r)).mergeSort
          fun a b => decide (a.2 ≤ b.2)))
    apply List.Subperm.trans hsub.subperm
    apply List.Perm.subperm
    have hperm := List.mergeSort_perm
      ((final_routes V).map fun r => (r, calculate_route_distance V r))
      (fun a b => decide (a.2 ≤ b.2))
    have h2 := List.Perm.map (fun x : List ℕ × ℚ => x.1) hperm
    rw [map_fst_pairs V] at h2
    exact h2
  · exact List.Subperm.refl _

theorem flatten_subperm {l1 l2 : List (List ℕ)} (h : List.Subperm l1 l2) :
    List.Subperm l1.flatten l2.flatten := by
  obtain ⟨l, hperm, hsub⟩ := h
  exact ⟨l.flatten, hperm.flatten, flatten_sublist hsub⟩

theorem kept_flatten_subperm_range (V : VRP) :
    List.Subperm ((kept_routes V).flatten) (List.range V.numCustomers) := by
  have h1 := flatten_subperm (kept_routes_subperm V)
  rw [show (final_routes V).flatten = (final_state V).routes.flatten from
    flatten_filter_nonempty _] at h1
  exact h1.trans ((final_state_partition V).2.2).subperm

end Savings

theorem getD_set_self {α : Type} (l : List α) (i : ℕ) (a d : α)
    (h : i < l.length) : (l.set i a).getD i d = a := by
  rw [List.getD_eq_getElem _ _ (by simpa using h)]
  exact List.getElem_set_self _

theorem route_load_perm (V : VRP) {r1 r2 : List ℕ} (h : r1.Perm r2) :
    route_load V r1 = route_load V r2 := by
  unfold route_load
  exact List.Perm.sum_eq (h.map V.demands)

theorem route_load_append (V : VRP) (r1 r2 : List ℕ) :
    route_load V (r1 ++ r2) = route_load V r1 + route_load V r2 := by
  unfold route_load
  rw [List.map_append, List.sum_append]

namespace Savings

theorem can_merge_cap (V : VRP) (r1 r2 : List ℕ) (l1 l2 : ℤ) (ci cj : ℕ)
    (h : can_merge_routes V r1 r2 l1 l2 ci cj = true) :
    l1 + l2 ≤ V.vehicle_capacity := by
  unfold can_merge_routes at h
  by_cases hcap : V.vehicle_capacity < l1 + l2
  · rw [if_pos hcap] at h
    exact absurd h (by simp)
  · omega

theorem map_range_getD {α : Type} (f : ℕ → α) (N k : ℕ) (d : α) (hk : k < N) :
    ((List.range N).map f).getD k d = f k := by
  rw [List.getD_eq_getElem _ _ (by simpa using hk), List.getElem_map,
    List.getElem_range]

theorem final_state_caps (V : VRP)
    (hd : ∀ c, c < V.numCustomers → V.demands c ≤ V.vehicle_capacity) :
    ∀ k, ((final_state V).routes.getD k [] ≠ [] →
      route_load V ((final_state V).routes.getD k []) ≤ V.vehicle_capacity) := by
  have h := process_savings_inv V V.numCustomers
    (fun st => st.routes.length = V.numCustomers ∧
      st.loads.length = V.numCustomers ∧
      (∀ c, c < V.numCustomers → st.cr c < V.numCustomers) ∧
      (∀ k, st.loads.getD k 0 = route_load V (st.routes.getD k [])) ∧
      (∀ k, st.routes.getD k [] ≠ [] →
        route_load V (st.routes.getD k []) ≤ V.vehicle_capacity))
    ?hstep (savings_list V) (init_state V) (savings_list_bounds V) ?hinit
  · exact h.2.2.2.2
  case hinit =>
    refine ⟨init_state_routes_length V, by simp [init_state], fun c hc => by
      simpa [init_state] using hc, ?_, ?_⟩
    · intro k
      by_cases hk : k < V.numCustomers
      · unfold init_state
        simp only
        rw [map_range_getD _ _ _ _ hk, map_range_getD _ _ _ _ hk]
        simp [route_load]
      · unfold init_state
        simp only
        rw [List.getD_eq_default _ _ (by simpa using hk),
          List.getD_eq_default _ _ (by simpa using hk)]
        simp [route_load]
    · intro k hne
      by_cases hk : k < V.numCustomers
      · unfold init_state at hne ⊢
        simp only at hne ⊢
        rw [map_range_getD _ _ _ _ hk] at hne ⊢
        simpa [route_load] using hd k hk
      · exfalso
        apply hne
        unfold init_state
        simp only
        rw [List.getD_eq_default _ _ (by simpa using hk)]
  case hstep =>
    intro st ci cj hci hcj ⟨hlen, hllen, hcr, hle, hcap⟩
    by_cases hsame : st.cr ci = st.cr cj
    · rw [merge_step_same V st ci cj hsame]
      exact ⟨hlen, hllen, hcr, hle, hcap⟩
    · by_cases hcan : can_merge_routes V (st.routes.getD (st.cr ci) [])
          (st.routes.getD (st.cr cj) []) (st.loads.getD (st.cr ci) 0)
          (st.loads.getD (st.cr cj) 0) ci cj = true
      · rw [merge_step_can V st ci cj hsame hcan]
        have hri : st.cr ci < st.routes.length := by rw [hlen]; exact hcr ci hci
        have hrj : st.cr cj < st.routes.length := by rw [hlen]; exact hcr cj hcj
        have hri' : st.cr ci < st.loads.length := by rw [hllen]; exact hcr ci hci
        have hrj' : st.cr cj < st.loads.length := by rw [hllen]; exact hcr cj hcj
        have hmload : route_load V ((merge_routes V (st.routes.getD (st.cr ci) [])
            (st.routes.getD (st.cr cj) []) ci cj).1) =
            st.loads.getD (st.cr ci) 0 + st.loads.getD (st.cr cj) 0 := by
          rw [route_load_perm V (merge_routes_perm V _ _ ci cj),
            route_load_append, hle, hle]
        refine ⟨by simp [hlen], by simp [hllen], ?_, ?_, ?_⟩
        · intro c hc
          simp only
          split
          · exact hcr ci hci
          · exact hcr c hc
        · intro k
          by_cases hkj : k = st.cr cj
          · subst hkj
            rw [getD_set_self _ _ _ _ (by rw [List.length_set]; exact hrj'),
              getD_set_self _ _ _ _ (by rw [List.length_set]; exact hrj)]
            simp [route_load]
          · rw [getD_set_ne _ _ _ _ _ (fun hh => hkj hh.symm),
              getD_set_ne _ _ _ _ _ (fun hh => hkj hh.symm)]
            by_cases hki : k = st.cr ci
            · subst hki
              rw [getD_set_self _ _ _ _ hri, getD_set_self _ _ _ _ hri']
              rw [merge_routes_load]
            · rw [getD_set_ne _ _ _ _ _ (fun hh => hki hh.symm),
                getD_set_ne _ _ _ _ _ (fun hh => hki hh.symm)]
              exact hle k
        · intro k hne
          by_cases hkj : k = st.cr cj
          · subst hkj
            rw [getD_set_self _ _ _ _ (by rw [List.length_set]; exact hrj)] at hne
            exact absurd rfl hne
          · rw [getD_set_ne _ _ _ _ _ (fun hh => hkj hh.symm)] at hne ⊢
            by_cases hki : k = st.cr ci
            · subst hki
              rw [getD_set_self _ _ _ _ hri] at hne ⊢
              rw [hmload]
              exact can_merge_cap V _ _ _ _ ci cj hcan
            · rw [getD_set_ne _ _ _ _ _ (fun hh => hki hh.symm)] at hne ⊢
              exact hcap k hne
      · rw [merge_step_not_can V st ci cj hsame
          (Bool.eq_false_iff.mpr (fun hcc => hcan hcc))]
        exact ⟨hlen, hllen, hcr, hle, hcap⟩

theorem solve_routes_cap (V : VRP)
    (hd : ∀ c, c < V.numCustomers → V.demands c ≤ V.vehicle_capacity) :
    ∀ r ∈ (solve V).routes, route_load V r ≤ V.vehicle_capacity := by
  intro r hr
  have hr2 : r ∈ final_routes V := (kept_routes_subperm V).subset hr
  rw [final_routes, List.mem_filter] at hr2
  obtain ⟨hmem, hne⟩ := hr2
  obtain ⟨k, hk, hget⟩ := List.getElem_of_mem hmem
  have hgetD : (final_state V).routes.getD k [] = r := by
    rw [List.getD_eq_getElem _ _ hk, hget]
  have := final_state_caps V hd k
  rw [hgetD] at this
  apply this
  intro hcon
  rw [hcon] at hne
  simp at hne

end Savings

theorem perm_erase_append (c : ℕ) (unv route : List ℕ) (h : c ∈ unv) :
    (unv.erase c ++ (route ++ [c])).Perm (unv ++ route) := by
  rw [List.perm_iff_count]
  intro x
  simp only [List.count_append]
  by_cases hx : x = c
  · subst hx
    rw [List.count_erase_self]
    have hpos := List.count_pos_iff.mpr h
    have h1 : List.count x [x] = 1 := by simp
    omega
  · rw [List.count_erase_of_ne hx]
    have h1 : List.count x [c] = 0 := by
      simp [List.count_cons, hx]
    omega

namespace NN

theorem solve_loop_step (V : VRP) (unvisited : List ℕ) (routes : List (List ℕ))
    (td : ℚ) (count : ℕ) (route : List ℕ) (rd : ℚ) (unv' : List ℕ)
    (h : unvisited ≠ [] ∧ count < V.num_vehicles)
    (hres : construct_route V unvisited = (route, rd, unv'))
    (hr : route ≠ []) :
    solve_loop V unvisited routes td count =
      solve_loop V unv' (routes ++ [route]) (td + rd) (count + 1) := by
  rw [solve_loop, if_pos h]
  split
  · rename_i route0 rd0 unv0 heq
    rw [hres] at heq
    rcases Option.some.inj (congrArg some heq) with h5
    simp only [Prod.mk.injEq] at h5
    obtain ⟨rfl, rfl, rfl⟩ := h5
    rw [if_neg hr]

theorem solve_loop_halt (V : VRP) (unvisited : List ℕ) (routes : List (List ℕ))
    (td : ℚ) (count : ℕ) (route : List ℕ) (rd : ℚ) (unv' : List ℕ)
    (h : unvisited ≠ [] ∧ count < V.num_vehicles)
    (hres : construct_route V unvisited = (route, rd, unv'))
    (hr : route = []) :
    solve_loop V unvisited routes td count =
      ⟨routes, td, routes.length, unv', unv'.isEmpty⟩ := by
  rw [solve_loop, if_pos h]
  split
  · rename_i route0 rd0 unv0 heq
    rw [hres] at heq
    rcases Option.some.inj (congrArg some heq) with h5
    simp only [Prod.mk.injEq] at h5
    obtain ⟨rfl, rfl, rfl⟩ := h5
    rw [if_pos hr]

theorem solve_loop_base (V : VRP) (unvisited : List ℕ) (routes : List (List ℕ))
    (td : ℚ) (count : ℕ)
    (h : ¬(unvisited ≠ [] ∧ count < V.num_vehicles)) :
    solve_loop V unvisited routes td count =
      ⟨routes, td, routes.length, unvisited, unvisited.isEmpty⟩ := by
  rw [solve_loop, if_neg h]

theorem construct_route_loop_none (V : VRP) (unvisited route : List ℕ)
    (load : ℤ) (pos : ℕ) (acc : ℚ)
    (h : select_nearest V pos load none unvisited = none) :
    construct_route_loop V unvisited route load pos acc =
      (route, if route = [] then acc else acc + V.dist pos 0, unvisited) := by
  rw [construct_route_loop]
  split
  · rfl
  · rename_i c d heq
    rw [h] at heq
    exact absurd heq (by simp)

theorem construct_route_loop_some (V : VRP) (unvisited route : List ℕ)
    (load : ℤ) (pos : ℕ) (acc : ℚ) (c : ℕ) (d : ℚ)
    (h : select_nearest V pos load none unvisited = some (c, d)) :
    construct_route_loop V unvisited route load pos acc =
      construct_route_loop V (unvisited.erase c) (route ++ [c])
        (load + V.demands c) (c + 1) (acc + d) := by
  rw [construct_route_loop]
  split
  · rename_i heq
    rw [h] at heq
    exact absurd heq (by simp)
  · rename_i c0 d0 heq
    rw [h] at heq
    rcases Option.some.inj heq with h5
    simp only [Prod.mk.injEq] at h5
    obtain ⟨rfl, rfl⟩ := h5
    rfl

theorem construct_route_loop_cap (V : VRP) :
    ∀ (unvisited route : List ℕ) (load : ℤ) (pos : ℕ) (acc : ℚ),
    route_load V route = load →
    (route ≠ [] → load ≤ V.vehicle_capacity) →
    ((construct_route_loop V unvisited route load pos acc).1 ≠ [] →
      route_load V (construct_route_loop V unvisited route load pos acc).1 ≤
        V.vehicle_capacity) := by
  intro unvisited route load pos acc
  induction unvisited, route, load, pos, acc using construct_route_loop.induct V with
  | case1 unvisited route load pos acc h =>
    intro hload hcap
    rw [construct_route_loop_none V unvisited route load pos acc h]
    intro hne
    show route_load V route ≤ V.vehicle_capacity
    rw [hload]
    exact hcap hne
  | case2 unvisited route load pos acc c d h ih =>
    intro hload hcap
    rw [construct_route_loop_some V unvisited route load pos acc c d h]
    apply ih
    · rw [route_load_append, hload]
      simp [route_load]
    · intro _
      exact (select_nearest_none_spec V pos load unvisited c d h).2.1

theorem construct_route_loop_perm (V : VRP) :
    ∀ (unvisited route : List ℕ) (load : ℤ) (pos : ℕ) (acc : ℚ),
    ((construct_route_loop V unvisited route load pos acc).2.2 ++
      (construct_route_loop V unvisited route load pos acc).1).Perm
      (unvisited ++ route) := by
  intro unvisited route load pos acc
  induction unvisited, route, load, pos, acc using construct_route_loop.induct V with
  | case1 unvisited route load pos acc h =>
    rw [construct_route_loop_none V unvisited route load pos acc h]
  | case2 unvisited route load pos acc c d h ih =>
    rw [construct_route_loop_some V unvisited route load pos acc c d h]
    have hc := (select_nearest_none_spec V pos load unvisited c d h).1
    exact List.Perm.trans ih (perm_erase_append c unvisited route hc)

theorem solve_loop_cap (V : VRP) :
    ∀ (unvisited : List ℕ) (routes : List (List ℕ)) (td : ℚ) (count : ℕ),
    (∀ r ∈ routes, route_load V r ≤ V.vehicle_capacity) →
    ∀ r ∈ (solve_loop V unvisited routes td count).routes,
      route_load V r ≤ V.vehicle_capacity := by
  intro unvisited routes td count
  induction unvisited, routes, td, count using solve_loop.induct V with
  | case1 unvisited routes td count h rd unv' hres =>
    intro hall
    rw [solve_loop_halt V unvisited routes td count [] rd unv' h hres rfl]
    exact hall
  | case2 unvisited routes td count h route rd unv' hres hr ih =>
    intro hall
    rw [solve_loop_step V unvisited routes td count route rd unv' h hres hr]
    apply ih
    intro r hrr
    rcases List.mem_append.mp hrr with h1 | h1
    · exact hall r h1
    · have hr1 : r = route := by simpa using h1
      subst hr1
      have hcap := construct_route_loop_cap V unvisited [] 0 0 0
        (by simp [route_load]) (fun hh => absurd rfl hh)
      rw [show construct_route_loop V unvisited [] 0 0 0 = (r, rd, unv') from hres] at hcap
      exact hcap hr
  | case3 unvisited routes td count h =>
    intro hall
    rw [solve_loop_base V unvisited routes td count h]
    exact hall

theorem solve_loop_perm (V : VRP) :
    ∀ (unvisited : List ℕ) (routes : List (List ℕ)) (td : ℚ) (count : ℕ),
    ((solve_loop V unvisited routes td count).unvisited_customers ++
      (solve_loop V unvisited routes td count).routes.flatten).Perm
      (unvisited ++ routes.flatten) := by
  intro unvisited routes td count
  induction unvisited, routes, td, count using solve_loop.induct V with
  | case1 unvisited routes td count h rd unv' hres =>
    rw [solve_loop_halt V unvisited routes td count [] rd unv' h hres rfl]
    have hcp := construct_route_loop_perm V unvisited [] 0 0 0
    rw [show construct_route_loop V unvisited [] 0 0 0 = ([], rd, unv') from hres] at hcp
    simp only [List.append_nil] at hcp
    exact List.Perm.append_right _ hcp
  | case2 unvisited routes td count h route rd unv' hres hr ih =>
    rw [solve_loop_step V unvisited routes td count route rd unv' h hres hr]
    apply List.Perm.trans ih
    have hcp := construct_route_loop_perm V unvisited [] 0 0 0
    rw [show construct_route_loop V unvisited [] 0 0 0 = (route, rd, unv') from hres] at hcp
    simp only [List.append_nil] at hcp
    rw [List.perm_iff_count]
    intro x
    have hcnt := hcp.count_eq x
    simp only [List.count_append] at hcnt ⊢
    rw [List.flatten_append]
    simp only [List.count_append, List.flatten_cons, List.flatten_nil,
      List.count_append, List.count_nil]
    omega
  | case3 unvisited routes td count h =>
    rw [solve_loop_base V unvisited routes td count h]

theorem solve_partition_perm (V : VRP) :
    (((solve V).unvisited_customers) ++ ((solve V).routes.flatten)).Perm
      (List.range V.numCustomers) := by
  have h := solve_loop_perm V (List.range V.numCustomers) [] 0 0
  simpa using h

theorem solve_cap (V : VRP) :
    ∀ r ∈ (solve V).routes, route_load V r ≤ V.vehicle_capacity := by
  apply solve_loop_cap
  intro r hr
  exact absurd hr (by simp)

end NN

namespace TwoOpt

theorem reverse_segment_perm (r : List ℕ) (i j : ℕ) (hij : i ≤ j) :
    (reverse_segment r i j).Perm r := by
  unfold reverse_segment
  conv_rhs => rw [← List.take_append_drop (i + 1) r]
  rw [List.append_assoc]
  apply List.Perm.append_left
  have h2 : r.drop (i + 1) =
      (r.drop (i + 1)).take (j - i) ++ (r.drop (i + 1)).drop (j - i) :=
    (List.take_append_drop _ _).symm
  have h3 : (r.drop (i + 1)).drop (j - i) = r.drop (j + 1) := by
    rw [List.drop_drop]
    congr 1
    omega
  conv_rhs => rw [h2, h3]
  exact List.Perm.append (List.reverse_perm _) (List.Perm.refl _)

theorem pair_list_le (n : ℕ) : ∀ p ∈ pair_list n, p.1 ≤ p.2 := by
  intro p hp
  rcases p with ⟨i, j⟩
  have := (pair_list_mem n i j).mp hp
  omega

theorem foldl_move_perm (V : VRP) (route : List ℕ) :
    ∀ (l : List (ℕ × ℕ)), (∀ p ∈ l, p.1 ≤ p.2) → ∀ (b : List ℕ × ℚ),
    b.1.Perm route → ((l.foldl (move_step V route) b).1).Perm route := by
  intro l
  induction l with
  | nil => intro _ b hb; exact hb
  | cons q rest ih =>
    intro hl b hb
    rw [List.foldl_cons]
    apply ih (fun p hp => hl p (List.mem_cons_of_mem _ hp))
    rcases move_step_or V route b q with h | ⟨_, h⟩
    · rw [h]; exact hb
    · rw [h]
      exact reverse_segment_perm route q.1 q.2 (hl q (List.mem_cons_self _ _))

theorem improve_route_2opt_perm (V : VRP) (route : List ℕ) :
    ((improve_route_2opt V route).1).Perm route := by
  unfold improve_route_2opt
  exact foldl_move_perm V route _ (pair_list_le _) (route, 0) (List.Perm.refl _)

theorem flatten_set_perm (rs : List (List ℕ)) (idx : ℕ) (r' : List ℕ)
    (h : idx < rs.length) (hperm : r'.Perm (rs.getD idx [])) :
    ((rs.set idx r').flatten).Perm rs.flatten := by
  rw [List.perm_iff_count]
  intro x
  have h1 := count_flatten_set rs idx r' h x
  have h2 := hperm.count_eq x
  omega

theorem swap_count (ri rj : List ℕ) (ci cj : ℕ) (hci : ci < ri.length)
    (hcj : cj < rj.length) (x : ℕ) :
    (ri.set ci (rj.getD cj 0)).count x + (rj.set cj (ri.getD ci 0)).count x =
      ri.count x + rj.count x := by
  rw [List.getD_eq_getElem rj 0 hcj, List.getD_eq_getElem ri 0 hci]
  rw [List.count_set rj[cj] x ri ci hci, List.count_set ri[ci] x rj cj hcj]
  have hmi : ri[ci] ∈ ri := List.getElem_mem hci
  have hmj : rj[cj] ∈ rj := List.getElem_mem hcj
  simp only [beq_iff_eq]
  by_cases h1 : ri[ci] = x
  · have c1 : 0 < ri.count x := List.count_pos_iff.mpr (h1 ▸ hmi)
    by_cases h2 : rj[cj] = x
    · have c2 : 0 < rj.count x := List.count_pos_iff.mpr (h2 ▸ hmj)
      rw [if_pos h1, if_pos h2]
      omega
    · rw [if_pos h1, if_neg h2]
      omega
  · by_cases h2 : rj[cj] = x
    · have c2 : 0 < rj.count x := List.count_pos_iff.mpr (h2 ▸ hmj)
      rw [if_neg h1, if_pos h2]
      omega
    · rw [if_neg h1, if_neg h2]
      omega

theorem inter_step_flatten (V : VRP) (rs : List (List ℕ)) (i j : ℕ)
    (nri nrj : List ℕ) (imp : ℚ)
    (hf : inter_search V rs = some (i, j, nri, nrj, imp)) :
    (((rs.set i nri).set j nrj).flatten).Perm rs.flatten := by
  obtain ⟨hij, hjlen, ⟨ci, cj, hci, hcj, hnri, hnrj⟩, _, _, _, _⟩ :=
    inter_search_spec V rs i j nri nrj imp hf
  have hilen : i < rs.length := lt_trans hij hjlen
  rw [hnri, hnrj]
  rw [List.perm_iff_count]
  intro x
  have hjlen' : j < (rs.set i ((rs.getD i []).set ci ((rs.getD j []).getD cj 0))).length := by
    rw [List.length_set]
    exact hjlen
  have h1 := count_flatten_set
    (rs.set i ((rs.getD i []).set ci ((rs.getD j []).getD cj 0))) j
    ((rs.getD j []).set cj ((rs.getD i []).getD ci 0)) hjlen' x
  have h2 := count_flatten_set rs i
    ((rs.getD i []).set ci ((rs.getD j []).getD cj 0)) hilen x
  have h3 : (rs.set i ((rs.getD i []).set ci ((rs.getD j []).getD cj 0))).getD j [] =
      rs.getD j [] :=
    getD_set_ne rs i j _ [] (Nat.ne_of_lt hij)
  have h4 := swap_count (rs.getD i []) (rs.getD j []) ci cj hci hcj x
  rw [h3] at h1
  omega

end TwoOpt

theorem count_range_eq (N c : ℕ) :
    (List.range N).count c = if c < N then 1 else 0 := by
  by_cases h : c < N
  · rw [if_pos h]
    have h1 : c ∈ List.range N := List.mem_range.mpr h
    have h2 := List.nodup_iff_count_le_one.mp (List.nodup_range N) c
    have h3 := List.count_pos_iff.mpr h1
    omega
  · rw [if_neg h]
    exact List.count_eq_zero.mpr (fun hc => h (List.mem_range.mp hc))

/-- Concrete instance violating the original C1 for the savings
constructor: one customer whose demand `11` exceeds the capacity `10`. -/
def V1 : VRP :=
  { numCustomers := 1
    demands := fun _ => 11
    vehicle_capacity := 10
    num_vehicles := 1
    dist := fun _ _ => 0
    dist_nonneg := fun _ _ => le_refl 0 }

/-- C1 (amended): the capacity invariant holds unconditionally for the
nearest-neighbor constructor; for the savings constructor it holds provided
every customer's demand is at most the vehicle capacity; and the two
improvement operations preserve it: when every input route is within
capacity, so is every returned route.  Each part carries only its own
hypothesis, so the theorem applies to every instance, including those with
an over-capacity customer. -/
theorem claim_C1 (V : VRP) (routes : List (List ℕ)) (m1 m2 : ℕ) :
    (∀ r ∈ (NN.solve V).routes, route_load V r ≤ V.vehicle_capacity) ∧
    ((∀ c, c < V.numCustomers → V.demands c ≤ V.vehicle_capacity) →
      ∀ r ∈ (Savings.solve V).routes, route_load V r ≤ V.vehicle_capacity) ∧
    ((∀ r ∈ routes, route_load V r ≤ V.vehicle_capacity) →
      ∀ r ∈ (TwoOpt.improve_solution V routes m1).routes,
        route_load V r ≤ V.vehicle_capacity) ∧
    ((∀ r ∈ routes, route_load V r ≤ V.vehicle_capacity) →
      ∀ r ∈ (TwoOpt.inter_route_2opt V routes m2).routes,
        route_load V r ≤ V.vehicle_capacity) := by
  refine ⟨NN.solve_cap V, fun hd => Savings.solve_routes_cap V hd, ?_, ?_⟩
  · intro hroutes
    apply TwoOpt.improve_loop_inv V m1
      (fun rs => ∀ r ∈ rs, route_load V r ≤ V.vehicle_capacity)
      ?_ routes _ 0 0 true hroutes
    intro rs idx r' imp hf hP r hr
    rcases List.mem_or_eq_of_mem_set hr with h1 | h1
    · exact hP r h1
    · subst h1
      obtain ⟨hidx, _, heq, _⟩ := TwoOpt.find_improvement_spec V rs idx r imp hf
      have hperm := TwoOpt.improve_route_2opt_perm V (rs.getD idx [])
      rw [heq] at hperm
      rw [route_load_perm V hperm]
      apply hP
      rw [List.getD_eq_getElem rs [] hidx]
      exact List.getElem_mem hidx
  · intro hroutes
    apply TwoOpt.inter_loop_inv V m2
      (fun rs => ∀ r ∈ rs, route_load V r ≤ V.vehicle_capacity)
      ?_ routes _ 0 0 true hroutes
    intro rs i j nri nrj imp hf hP r hr
    obtain ⟨_, _, _, hf1, hf2, _, _⟩ := TwoOpt.inter_search_spec V rs i j nri nrj imp hf
    rcases List.mem_or_eq_of_mem_set hr with h1 | h1
    · rcases List.mem_or_eq_of_mem_set h1 with h2 | h2
      · exact hP r h2
      · subst h2
        simpa [is_route_feasible] using hf1
    · subst h1
      simpa [is_route_feasible] using hf2

/-- C1 witness: at the all-zero instance the nearest-neighbor part holds
outright, and the antecedents of the savings and improver parts are
discharged concretely, yielding every conclusion. -/
theorem claim_C1_witness :
    (∀ c, c < V0.numCustomers → V0.demands c ≤ V0.vehicle_capacity) ∧
    (∀ r ∈ ([[0, 1, 2]] : List (List ℕ)), route_load V0 r ≤ V0.vehicle_capacity) ∧
    (∀ r ∈ (NN.solve V0).routes, route_load V0 r ≤ V0.vehicle_capacity) ∧
    (∀ r ∈ (Savings.solve V0).routes, route_load V0 r ≤ V0.vehicle_capacity) ∧
    (∀ r ∈ (TwoOpt.improve_solution V0 [[0, 1, 2]] 5).routes,
      route_load V0 r ≤ V0.vehicle_capacity) ∧
    (∀ r ∈ (TwoOpt.inter_route_2opt V0 [[0, 1, 2]] 5).routes,
      route_load V0 r ≤ V0.vehicle_capacity) :=
  ⟨fun c _ => by norm_num [V0], by decide,
    (claim_C1 V0 [[0, 1, 2]] 5 5).1,
    (claim_C1 V0 [[0, 1, 2]] 5 5).2.1 (fun c _ => by norm_num [V0]),
    (claim_C1 V0 [[0, 1, 2]] 5 5).2.2.1 (by decide),
    (claim_C1 V0 [[0, 1, 2]] 5 5).2.2.2 (by decide)⟩

/-- C1 counterexample: with one customer of demand `11` and capacity `10`,
`SavingsAlgorithmVRP.solve` returns the route `[0]` with load `11 > 10`,
and `improve_solution` returns the same over-capacity route unchanged, so
the unamended claim is false. -/
theorem claim_C1_counterexample :
    (Savings.solve V1).routes = [[0]] ∧
    (TwoOpt.improve_solution V1 [[0]] 5).routes = [[0]] ∧
    ¬(route_load V1 [0] ≤ V1.vehicle_capacity) := by
  have h1 : Savings.savings_list V1 = [] := by
    have h0 : Savings.savings_raw V1 = [] := by decide
    rw [Savings.savings_list, h0, List.mergeSort_nil]
  have h2 : Savings.kept_routes V1 = [[0]] := by
    rw [Savings.kept_routes, Savings.final_routes, Savings.final_state, h1]
    decide
  have hn : TwoOpt.find_improvement V1 [[0]] = none := by decide
  have h3 : (TwoOpt.improve_solution V1 [[0]] 5).routes = [[0]] := by
    rw [TwoOpt.improve_solution,
      TwoOpt.improve_loop_step_none V1 5 [[0]] _ 0 0 true ⟨rfl, by norm_num⟩ hn,
      TwoOpt.improve_loop_base V1 5 [[0]] _ 1 1 false (by simp)]
  exact ⟨h2, h3, by decide⟩

/-- C2: for both constructors, each customer index appears at most once
across all returned routes, a customer index is in the full set
`{0, …, N-1}` exactly when it is on some returned route or in
`unvisited_customers`, and no served customer is listed as unvisited;
`inter_route_2opt` preserves the assignment exactly: the multiset of
customers over all routes (hence each customer's unique route membership)
is unchanged. -/
theorem claim_C2 (V : VRP) (routes : List (List ℕ)) (m2 : ℕ) :
    (∀ c : ℕ, ((NN.solve V).routes.flatten).count c ≤ 1) ∧
    (∀ c : ℕ, c < V.numCustomers ↔
      ((∃ r ∈ (NN.solve V).routes, c ∈ r) ∨
        c ∈ (NN.solve V).unvisited_customers)) ∧
    (∀ (c : ℕ) (r : List ℕ), r ∈ (NN.solve V).routes → c ∈ r →
      c ∉ (NN.solve V).unvisited_customers) ∧
    (∀ c : ℕ, ((Savings.solve V).routes.flatten).count c ≤ 1) ∧
    (∀ c : ℕ, c < V.numCustomers ↔
      ((∃ r ∈ (Savings.solve V).routes, c ∈ r) ∨
        c ∈ (Savings.solve V).unvisited_customers)) ∧
    (∀ (c : ℕ) (r : List ℕ), r ∈ (Savings.solve V).routes → c ∈ r →
      c ∉ (Savings.solve V).unvisited_customers) ∧
    (∀ c : ℕ, ((TwoOpt.inter_route_2opt V routes m2).routes.flatten).count c =
      (routes.flatten).count c) := by
  have hNN := NN.solve_partition_perm V
  have hcount : ∀ c : ℕ,
      ((NN.solve V).unvisited_customers).count c +
        ((NN.solve V).routes.flatten).count c =
        if c < V.numCustomers then 1 else 0 := by
    intro c
    have h := hNN.count_eq c
    rw [List.count_append] at h
    rw [← count_range_eq V.numCustomers c]
    exact h
  have hSavK := Savings.kept_flatten_subperm_range V
  have hSavCount : ∀ c : ℕ,
      ((Savings.solve V).routes.flatten).count c ≤ if c < V.numCustomers then 1 else 0 := by
    intro c
    obtain ⟨l, hp, hs⟩ := hSavK
    have h1 := hp.count_eq c
    have h2 := hs.count_le c
    rw [← count_range_eq V.numCustomers c]
    have hksr : (Savings.solve V).routes = Savings.kept_routes V := rfl
    rw [hksr]
    omega
  refine ⟨?_, ?_, ?_, ?_, ?_, ?_, ?_⟩
  · intro c
    have := hcount c
    by_cases h : c < V.numCustomers
    · rw [if_pos h] at this
      omega
    · rw [if_neg h] at this
      omega
  · intro c
    constructor
    · intro h
      have hc := hcount c
      rw [if_pos h] at hc
      by_cases hmem : c ∈ (NN.solve V).routes.flatten
      · exact Or.inl (by
          obtain ⟨r, hr, hcr⟩ := List.mem_flatten.mp hmem
          exact ⟨r, hr, hcr⟩)
      · right
        have h0 : ((NN.solve V).routes.flatten).count c = 0 :=
          List.count_eq_zero.mpr hmem
        have : 0 < ((NN.solve V).unvisited_customers).count c := by omega
        exact List.count_pos_iff.mp this
    · intro h
      have hc := hcount c
      have hpos : 0 < ((NN.solve V).unvisited_customers).count c +
          ((NN.solve V).routes.flatten).count c := by
        rcases h with ⟨r, hr, hcr⟩ | h
        · have : c ∈ (NN.solve V).routes.flatten :=
            List.mem_flatten.mpr ⟨r, hr, hcr⟩
          have := List.count_pos_iff.mpr this
          omega
        · have := List.count_pos_iff.mpr h
          omega
      by_cases hlt : c < V.numCustomers
      · exact hlt
      · rw [if_neg hlt] at hc
        omega
  · intro c r hr hcr hun
    have hc := hcount c
    have h1 : c ∈ (NN.solve V).routes.flatten := List.mem_flatten.mpr ⟨r, hr, hcr⟩
    have h2 := List.count_pos_iff.mpr h1
    have h3 := List.count_pos_iff.mpr hun
    by_cases hlt : c < V.numCustomers
    · rw [if_pos hlt] at hc
      omega
    · rw [if_neg hlt] at hc
      omega
  · intro c
    have := hSavCount c
    by_cases h : c < V.numCustomers
    · rw [if_pos h] at this
      exact this
    · rw [if_neg h] at this
      omega
  · intro c
    constructor
    · intro h
      by_cases hmem : c ∈ (Savings.kept_routes V).flatten
      · exact Or.inl (by
          obtain ⟨r, hr, hcr⟩ := List.mem_flatten.mp hmem
          exact ⟨r, hr, hcr⟩)
      · right
        show c ∈ Savings.unvisited_list V
        rw [Savings.unvisited_list, List.mem_filter]
        refine ⟨List.mem_range.mpr h, ?_⟩
        simpa [List.contains] using hmem
    · intro h
      rcases h with ⟨r, hr, hcr⟩ | h
      · have h1 : c ∈ (Savings.kept_routes V).flatten :=
          List.mem_flatten.mpr ⟨r, hr, hcr⟩
        have h2 := (hSavK.subset) h1
        exact List.mem_range.mp h2
      · have h2 : c ∈ Savings.unvisited_list V := h
        rw [Savings.unvisited_list, List.mem_filter] at h2
        exact List.mem_range.mp h2.1
  · intro c r hr hcr hun
    have h1 : c ∈ (Savings.kept_routes V).flatten := List.mem_flatten.mpr ⟨r, hr, hcr⟩
    have h2 : c ∈ Savings.unvisited_list V := hun
    rw [Savings.unvisited_list, List.mem_filter] at h2
    have h3 := h2.2
    rw [Bool.not_eq_true'] at h3
    have h5 : c ∉ (Savings.kept_routes V).flatten := by
      simpa [List.contains] using h3
    exact h5 h1
  · intro c
    have hinv := TwoOpt.inter_loop_inv V m2
      (fun rs => rs.flatten.Perm routes.flatten)
      (fun rs i j nri nrj imp hf hP =>
        (TwoOpt.inter_step_flatten V rs i j nri nrj imp hf).trans hP)
      routes (calculate_total_distance V routes) 0 0 true (List.Perm.refl _)
    exact hinv.count_eq c

/-- C2 witness: at the all-zero instance, customer `0` is covered: it lies
on a returned route or in the unvisited list of the nearest-neighbor
solution. -/
theorem claim_C2_witness :
    (0 < V0.numCustomers) ∧
    ((∃ r ∈ (NN.solve V0).routes, 0 ∈ r) ∨
      0 ∈ (NN.solve V0).unvisited_customers) :=
  ⟨by decide, ((claim_C2 V0 [[0, 1, 2]] 1).2.1 0).mp (by decide)⟩
